import Mathlib

/-!
Verification of the Elyments channel plugin (clawdbotElyments).

This file shallowly embeds the plugin's pure decision logic:

* `src/elyments/xmpp.ts` (shipped concatenated into `accounts.ts` in this
  snapshot): JID helpers, stanza decoding (`handleStanza`), and the
  outbound text envelope (`sendText`);
* `src/elyments/credentials.ts`: `isTokenExpiring` / `parseJwtPayload`;
* `src/elyments/auth.ts`: `withAutoRefresh`;
* `src/elyments/client.ts`: `resolveRecipient` and its recipient index;
* `src/elyments/monitor.ts`: the inbound policy gate (`handleMessage`).

JavaScript strings are modelled as Lean `String`s, with the handful of
JS string methods the code uses re-implemented over `String.data` so that
everything computes (`toLowerCase`, `trim`, `includes`, `split`).
`JSON.parse` / `JSON.stringify` are modelled by an executable JSON codec
over an explicit value type `JVal`, with the codec round-trip proven.
External effects (HTTP responses, the pairing store, host-side helpers
such as the mention matcher) are passed in as explicit data.
-/

set_option maxRecDepth 20000

namespace Elyments

/-! ## JavaScript string primitives -/

/-- JS `s.toLowerCase()` (ASCII case mapping, which covers every string the
plugin compares: policies, JIDs, config entries). -/
def lowerStr (s : String) : String := ⟨s.data.map Char.toLower⟩

/-- JS `s.trim()`: strip leading and trailing whitespace. -/
def jsTrim (s : String) : String :=
  ⟨((s.data.dropWhile Char.isWhitespace).reverse.dropWhile Char.isWhitespace).reverse⟩

/-- Does `pat` occur as a prefix of `l`? (helper for the substring test). -/
def leadsWith : List Char → List Char → Bool
  | [], _ => true
  | a :: as, l =>
    match l with
    | [] => false
    | b :: bs => a = b && leadsWith as bs

/-- Does `pat` occur contiguously inside `l`? (helper for `occursIn`). -/
def occursInL (pat : List Char) : List Char → Bool
  | [] => leadsWith pat []
  | c :: cs => leadsWith pat (c :: cs) || occursInL pat cs

/-- JS `s.includes(pat)` (so `occursIn pat s`); the empty pattern matches. -/
def occursIn (pat s : String) : Bool := occursInL pat.data s.data

/-- JS `s.split(sep)[0]`: the characters before the first separator. -/
def headSeg (sep : Char) (s : String) : String :=
  ⟨s.data.takeWhile (fun c => c ≠ sep)⟩

/-- JS `s.split(sep)` on lists of characters. -/
def jsSplitL (sep : Char) : List Char → List (List Char)
  | [] => [[]]
  | c :: cs =>
    if c = sep then [] :: jsSplitL sep cs
    else
      match jsSplitL sep cs with
      | [] => [[c]]
      | seg :: rest => (c :: seg) :: rest

/-- JS `s.split(sep)` (single-character separator, which is all the code uses). -/
def jsSplit (sep : Char) (s : String) : List String :=
  (jsSplitL sep s.data).map (fun l => ⟨l⟩)

/-- JS `a || b` where `a` is a possibly-absent string: `undefined`, `null`
and the empty string are falsy and select `b`. -/
def jsOrS (a : Option String) (b : String) : String :=
  match a with
  | some s => if s = "" then b else s
  | none => b

/-- JS `a || b` on two strings: the empty string is falsy. -/
def jsOrStr (a b : String) : String := if a = "" then b else a

/-! ## A JSON codec

The plugin trusts the platform's `JSON.parse` / `JSON.stringify`.  We model
them with an executable codec over `JVal`.  Numbers are integers (every
number the plugin ever encodes or reads — `ver`, `exp` — is an integer);
the parser does not skip whitespace and does not accept fraction/exponent
number forms, which no claim exercises. -/

inductive JVal where
  | null
  | jbool (b : Bool)
  | jint (n : Int)
  | jstr (s : String)
  | jarr (items : List JVal)
  | jobj (fields : List (String × JVal))

/-- Lower-case hex digit for a value below 16 (as `JSON.stringify` emits). -/
def hexDigitChar (n : Nat) : Char :=
  Char.ofNat (if n < 10 then '0'.toNat + n else 'a'.toNat + n - 10)

/-- One character as `JSON.stringify` escapes it inside a string literal. -/
def jsEscChar (c : Char) : List Char :=
  if c = '"' then ['\\', '"']
  else if c = '\\' then ['\\', '\\']
  else if c = '\x08' then ['\\', 'b']
  else if c = '\t' then ['\\', 't']
  else if c = '\n' then ['\\', 'n']
  else if c = '\x0c' then ['\\', 'f']
  else if c = '\r' then ['\\', 'r']
  else if c.toNat < 32 then
    '\\' :: 'u' :: '0' :: '0' :: [hexDigitChar (c.toNat / 16), hexDigitChar (c.toNat % 16)]
  else [c]

/-- A whole string body, escaped. -/
def jsEscStr (l : List Char) : List Char := l.flatMap jsEscChar

/-- The digit character for a value below 10. -/
def digitChar10 (n : Nat) : Char := Char.ofNat ('0'.toNat + n)

/-- Decimal digits of a natural number, most significant first; the fuel is
structural (so the function computes by reduction) and any fuel above `n`
gives the same answer (`natDigitCharsAux_fuel` below). -/
def natDigitCharsAux : Nat → Nat → List Char
  | 0, _ => []
  | fuel + 1, n =>
    if n < 10 then [digitChar10 n]
    else natDigitCharsAux fuel (n / 10) ++ [digitChar10 (n % 10)]

/-- Decimal digits of a natural number, most significant first. -/
def natDigitChars (n : Nat) : List Char := natDigitCharsAux (n + 1) n

/-- Decimal rendering of an integer (optional minus sign, then digits). -/
def intChars (i : Int) : List Char :=
  (if i < 0 then ['-'] else []) ++ natDigitChars i.natAbs

mutual
/-- `JSON.stringify`, to a character list (no added whitespace, like JS). -/
def renderJVal : JVal → List Char
  | .null => ['n', 'u', 'l', 'l']
  | .jbool true => ['t', 'r', 'u', 'e']
  | .jbool false => ['f', 'a', 'l', 's', 'e']
  | .jint n => intChars n
  | .jstr s => '"' :: (jsEscStr s.data ++ ['"'])
  | .jarr items => '[' :: (renderItems items ++ [']'])
  | .jobj fields => '{' :: (renderFields fields ++ ['}'])

/-- Comma-separated array items. -/
def renderItems : List JVal → List Char
  | [] => []
  | [v] => renderJVal v
  | v :: w :: rest => renderJVal v ++ ',' :: renderItems (w :: rest)

/-- Comma-separated `"key":value` object members. -/
def renderFields : List (String × JVal) → List Char
  | [] => []
  | [(k, v)] => '"' :: (jsEscStr k.data ++ ('"' :: ':' :: renderJVal v))
  | (k, v) :: f :: rest =>
    '"' :: (jsEscStr k.data ++ ('"' :: ':' :: (renderJVal v ++ ',' :: renderFields (f :: rest))))
end

/-- `JSON.stringify` as a `String → String` boundary. -/
def jsonStringify (v : JVal) : String := ⟨renderJVal v⟩

/-- Numeric value of a hex digit character, if it is one. -/
def hexCharVal (c : Char) : Option Nat :=
  if '0' ≤ c ∧ c ≤ '9' then some (c.toNat - '0'.toNat)
  else if 'a' ≤ c ∧ c ≤ 'f' then some (c.toNat - 'a'.toNat + 10)
  else if 'A' ≤ c ∧ c ≤ 'F' then some (c.toNat - 'A'.toNat + 10)
  else none

/-- The character named by a simple escape code: the named control
characters map to their values, and quote, backslash and slash stand for
themselves. -/
def unescCode (e : Char) : Option Char :=
  if e = 'n' then some '\n'
  else if e = 't' then some '\t'
  else if e = 'r' then some '\r'
  else if e = 'b' then some '\x08'
  else if e = 'f' then some '\x0c'
  else if e = '"' ∨ e = '\\' ∨ e = '/' then some e
  else none

/-- Scan a JSON string body up to (and past) the closing quote, undoing
escapes; yields the content and the remaining input. -/
def scanStr : List Char → Option (List Char × List Char)
  | '"' :: rest => some ([], rest)
  | '\\' :: 'u' :: a :: b :: c :: d :: rest =>
    (match hexCharVal a, hexCharVal b, hexCharVal c, hexCharVal d with
     | some va, some vb, some vc, some vd =>
       match scanStr rest with
       | some (content, r) => some (Char.ofNat (((va * 16 + vb) * 16 + vc) * 16 + vd) :: content, r)
       | none => none
     | _, _, _, _ => none)
  | '\\' :: e :: rest =>
    (match unescCode e with
     | some ch =>
       match scanStr rest with
       | some (content, r) => some (ch :: content, r)
       | none => none
     | none => none)
  | c :: rest =>
    (match scanStr rest with
     | some (content, r) => some (c :: content, r)
     | none => none)
  | [] => none

/-- Is `c` a decimal digit? -/
def isDigitCh (c : Char) : Bool := '0' ≤ c && c ≤ '9'

/-- Greedily take leading digits. -/
def scanDigits : List Char → (List Char × List Char)
  | c :: cs =>
    if isDigitCh c then
      match scanDigits cs with
      | (ds, r) => (c :: ds, r)
    else ([], c :: cs)
  | [] => ([], [])

/-- Numeric value of a digit run. -/
def digitsVal (ds : List Char) : Nat :=
  ds.foldl (fun a c => a * 10 + (c.toNat - '0'.toNat)) 0

/-- Scan an integer literal: optional minus sign, then one-or-more digits. -/
def scanInt (cs : List Char) : Option (Int × List Char) :=
  match cs with
  | '-' :: cs1 =>
    (match scanDigits cs1 with
     | ([], _) => none
     | (d :: ds, r) => some (-(digitsVal (d :: ds) : Int), r))
  | _ =>
    (match scanDigits cs with
     | ([], _) => none
     | (d :: ds, r) => some ((digitsVal (d :: ds) : Int), r))

mutual
/-- Recursive-descent JSON value parser; `fuel` only bounds recursion and is
set from the input length at the top level. -/
def parseJVal : Nat → List Char → Option (JVal × List Char)
  | 0, _ => none
  | fuel + 1, cs =>
    match cs with
    | 'n' :: 'u' :: 'l' :: 'l' :: r => some (.null, r)
    | 't' :: 'r' :: 'u' :: 'e' :: r => some (.jbool true, r)
    | 'f' :: 'a' :: 'l' :: 's' :: 'e' :: r => some (.jbool false, r)
    | '"' :: r =>
      (match scanStr r with
       | some (content, r1) => some (.jstr ⟨content⟩, r1)
       | none => none)
    | '[' :: r =>
      (match r with
       | ']' :: r1 => some (.jarr [], r1)
       | _ =>
         match parseItems fuel r with
         | some (items, r1) => some (.jarr items, r1)
         | none => none)
    | '{' :: r =>
      (match r with
       | '}' :: r1 => some (.jobj [], r1)
       | _ =>
         match parseFields fuel r with
         | some (fs, r1) => some (.jobj fs, r1)
         | none => none)
    | c :: r =>
      if c = '-' ∨ isDigitCh c then
        match scanInt (c :: r) with
        | some (n, r1) => some (.jint n, r1)
        | none => none
      else none
    | [] => none

/-- One-or-more comma-separated array items, consuming the closing bracket. -/
def parseItems : Nat → List Char → Option (List JVal × List Char)
  | 0, _ => none
  | fuel + 1, cs =>
    match parseJVal fuel cs with
    | none => none
    | some (v, r) =>
      match r with
      | ',' :: r1 =>
        (match parseItems fuel r1 with
         | some (vs, r2) => some (v :: vs, r2)
         | none => none)
      | ']' :: r1 => some ([v], r1)
      | _ => none

/-- One-or-more comma-separated object members, consuming the closing brace. -/
def parseFields : Nat → List Char → Option (List (String × JVal) × List Char)
  | 0, _ => none
  | fuel + 1, cs =>
    match cs with
    | '"' :: r =>
      (match scanStr r with
       | none => none
       | some (key, r1) =>
         match r1 with
         | ':' :: r2 =>
           (match parseJVal fuel r2 with
            | none => none
            | some (v, r3) =>
              match r3 with
              | ',' :: r4 =>
                (match parseFields fuel r4 with
                 | some (fs, r5) => some ((⟨key⟩, v) :: fs, r5)
                 | none => none)
              | '}' :: r4 => some ([(⟨key⟩, v)], r4)
              | _ => none)
         | _ => none)
    | _ => none
end

/-- `JSON.parse`: succeeds only when a value consumes the entire input. -/
def jsonParse (s : String) : Option JVal :=
  match parseJVal (s.data.length + 1) s.data with
  | some (v, []) => some v
  | _ => none

/-- Object field access as JS property access on a parsed object: on
duplicate keys `JSON.parse` keeps the last, hence the reversed search. -/
def JVal.getField (v : JVal) (key : String) : Option JVal :=
  match v with
  | .jobj fields => (fields.reverse.find? (fun p => p.1 = key)).map (fun p => p.2)
  | _ => none

/-- The string a JSON value holds, if it is a string. -/
def JVal.asStr : JVal → Option String
  | .jstr s => some s
  | _ => none

/-- The integer a JSON value holds, if it is a number. -/
def JVal.asInt : JVal → Option Int
  | .jint n => some n
  | _ => none

/-! ## JID helpers (`xmpp.ts`) -/

/-- Embeds `isElymentsGroup`: `jid.includes("@muclight.localhost")`. -/
def isElymentsGroup (jid : String) : Bool := occursIn "@muclight.localhost" jid

/-- Embeds `extractUserId`: `jid.split("@")[0] || jid`. -/
def extractUserId (jid : String) : String :=
  let head := headSeg '@' jid
  if head = "" then jid else head

/-- Embeds `formatDirectJid`: append `@localhost` unless the id already
contains an `@`. -/
def formatDirectJid (userId : String) : String :=
  if userId.data.contains '@' then userId else userId ++ "@localhost"

/-- Embeds `formatGroupJid`: append `@muclight.localhost` unless present. -/
def formatGroupJid (groupId : String) : String :=
  if occursIn "@muclight.localhost" groupId then groupId
  else groupId ++ "@muclight.localhost"

/-! ## Inbound stanza decoding (`ElymentsXmppClient.handleStanza`)

The stanza is modelled by the XML projections the decoder reads: the
element name, the attributes, `getChildText("body")`, and the
MAM-result → forwarded → (inner message, delay) chain. -/

/-- The forwarded inner `message` element: only its body text is read. -/
structure InnerMsg where
  body : Option String

/-- The `delay` element: only its `stamp` attribute is read. -/
structure DelayEl where
  stamp : Option String

/-- The `forwarded` element of a MAM result. -/
structure ForwardedEl where
  innerMsg : Option InnerMsg
  delay : Option DelayEl

/-- The `result` element in the MAM namespace. -/
structure MamResultEl where
  forwarded : Option ForwardedEl

/-- A received stanza, as the decoder projects it. -/
structure Stanza where
  name : String
  fromAttr : Option String
  toAttr : Option String
  idAttr : Option String
  typeAttr : Option String
  bodyText : Option String
  mamResult : Option MamResultEl

/-- The decoded message event (`XmppMessageEvent` minus `media`/`raw`). -/
structure XmppMessageEvent where
  id : String
  fromJid : String
  toJid : String
  msgType : String
  body : String
  timestamp : Int
  senderName : Option String

/-- The three values the JSON-body stage of the decoder produces. -/
structure DecodedBody where
  body : String
  senderName : Option String
  messageId : Option String

/-- Embeds `handleStanza` lines 273–291: parse the raw body as JSON and read
`info.message || info.caption || rawBody` (JS `||`, so empty strings fall
through), `senderName ?? sender_name`, and the embedded `id`.  Non-string
values in these slots are treated as absent (the platform only sends
strings there). -/
def parseElymentsBody (rawBody : String) : DecodedBody :=
  match jsonParse rawBody with
  | none => ⟨rawBody, none, none⟩
  | some parsed =>
    let msg := ((parsed.getField "info").bind (fun i => i.getField "message")).bind JVal.asStr
    let cap := ((parsed.getField "info").bind (fun i => i.getField "caption")).bind JVal.asStr
    let sn :=
      match (parsed.getField "senderName").bind JVal.asStr with
      | some s => some s
      | none => (parsed.getField "sender_name").bind JVal.asStr
    ⟨jsOrS msg (jsOrS cap rawBody), sn, (parsed.getField "id").bind JVal.asStr⟩

/-- Embeds `ElymentsXmppClient.handleStanza`.  `userId` is the session's
user id (self-echo suppression), `now` stands for `Date.now()` at delivery,
and `dateParse` abstracts `new Date(stamp).getTime()`.  `none` means the
stanza is dropped without emitting an event. -/
def handleStanza (userId : String) (now : Int) (dateParse : String → Int)
    (st : Stanza) : Option XmppMessageEvent :=
  if st.name ≠ "message" then none else
  let fromJid := (st.fromAttr).getD ""
  let toJid := (st.toAttr).getD ""
  let idAttr := jsOrS st.idAttr ("msg-" ++ ⟨intChars now⟩)
  let msgType := jsOrS st.typeAttr "chat"
  if occursIn userId fromJid then none else
  let rawBody0 := jsOrS st.bodyText ""
  let step :=
    match st.mamResult with
    | some mr =>
      (match mr.forwarded with
       | some fwd =>
         let rb :=
           match fwd.innerMsg with
           | some im => jsOrS im.body rawBody0
           | none => rawBody0
         let ts :=
           match fwd.delay with
           | some d =>
             (match d.stamp with
              | some stamp => dateParse stamp
              | none => now)
           | none => now
         (rb, ts)
       | none => (rawBody0, now))
    | none => (rawBody0, now)
  if step.1 = "" then none else
  let decoded := parseElymentsBody step.1
  some
    { id := jsOrS decoded.messageId idAttr
      fromJid := fromJid
      toJid := toJid
      msgType := msgType
      body := decoded.body
      timestamp := step.2
      senderName := decoded.senderName }

/-! ## Outbound text envelope (`ElymentsXmppClient.sendText`) -/

/-- Embeds the JSON body object `sendText` builds (lines 401–410), with the
fields in source order; `senderName || "Clawdbot"` is JS `||`. -/
def sendTextEnvelope (senderName : Option String) (text bodyId : String) : JVal :=
  .jobj
    [("senderName", .jstr (jsOrS senderName "Clawdbot")),
     ("ver", .jint 1),
     ("info", .jobj [("message", .jstr text)]),
     ("id", .jstr bodyId),
     ("type", .jstr "text"),
     ("lang", .jstr "en"),
     ("isFwd", .jbool false),
     ("origin", .jstr "W|NodeJS|clawdbot")]

/-- The stanza body string `sendText` puts on the wire. -/
def sendTextBody (senderName : Option String) (text bodyId : String) : String :=
  jsonStringify (sendTextEnvelope senderName text bodyId)

/-- Embeds `sendText`'s stanza-type choice: `groupchat` for group JIDs. -/
def sendTextType (jid : String) : String :=
  if occursIn "@muclight.localhost" jid then "groupchat" else "chat"

/-! ## Token expiry (`credentials.ts`) -/

/-- Embeds `parseJwtPayload`: split the token on dots, require exactly three
parts, base64-decode the middle one and parse it as JSON.  `b64` abstracts
`Buffer.from(s, "base64").toString("utf-8")`. -/
def parseJwtPayload (b64 : String → String) (token : String) : Option JVal :=
  let parts := jsSplit '.' token
  if parts.length ≠ 3 then none
  else jsonParse (b64 ((parts.get? 1).getD ""))

/-- Embeds `isTokenExpiring` with its default 60 s buffer.  `now` stands for
`Date.now()`.  JS `!payload?.exp` is falsy for an absent claim *and* for the
number `0`, hence the explicit zero case; a non-numeric `exp` is modelled as
absent. -/
def isTokenExpiring (b64 : String → String) (now : Int) (token : String) : Bool :=
  match parseJwtPayload b64 token with
  | none => false
  | some payload =>
    match (payload.getField "exp").bind JVal.asInt with
    | none => false
    | some e =>
      if e = 0 then false
      else decide (now ≥ e * 1000 - 60000)

/-! ## Automatic session refresh (`auth.ts`) -/

/-- A persisted Elyments session. -/
structure Session where
  userId : String
  accessToken : String
  chatAccessToken : String
  refreshToken : String
  savedAt : Int

/-- The collaborators `withAutoRefresh` calls, abstracted by outcome:
`getValidSession` and `refreshSession` either produce a session or fail with
an error message, and `op n` is the wrapped operation on its `n`-th
invocation (so invocation counts are observable). -/
structure AuthCtx (T : Type) where
  getValidSession : Except String Session
  refreshSession : Except String Session
  op : Nat → Session → Except String T

/-- Embeds the retry predicate of `withAutoRefresh` (line 293): the error
message contains `401`, `unauthorized`, or `expired`. -/
def isAuthShapedError (msg : String) : Bool :=
  occursIn "401" msg || occursIn "unauthorized" msg || occursIn "expired" msg

/-- Embeds `withAutoRefresh`, also returning how many times the wrapped
operation ran.  Mirrors the source: fail if no valid session; run the
operation; on an authorization-shaped failure refresh and, only if the
refresh succeeded, run the operation once more (whose outcome is returned
as-is); otherwise re-throw the original error. -/
def withAutoRefresh {T : Type} (ctx : AuthCtx T) : Except String T × Nat :=
  match ctx.getValidSession with
  | .error e => (.error (jsOrStr e "No valid session"), 0)
  | .ok s =>
    match ctx.op 0 s with
    | .ok v => (.ok v, 1)
    | .error msg =>
      if isAuthShapedError msg then
        match ctx.refreshSession with
        | .ok s2 => (ctx.op 1 s2, 2)
        | .error _ => (.error msg, 1)
      else (.error msg, 1)

/-! ## Recipient resolution (`client.ts`) -/

/-- A cache entry of the recipient index (`updatedAt` is never read by the
embedded operations and is omitted). -/
structure RecipientEntry where
  jid : String
  title : String
  isGroup : Bool

/-- The `recipientIndex` map, as key/entry pairs with unique keys. -/
abbrev RecIndex := List (String × RecipientEntry)

/-- JS `Map.get`. -/
def mapGet (m : RecIndex) (k : String) : Option RecipientEntry :=
  (m.find? (fun p => p.1 = k)).map (fun p => p.2)

/-- JS `Map.set`: overwrite an existing key, else append. -/
def mapSet (m : RecIndex) (k : String) (v : RecipientEntry) : RecIndex :=
  if m.any (fun p => p.1 = k) then
    m.map (fun p => if p.1 = k then (k, v) else p)
  else m ++ [(k, v)]

/-- One row of the `Chat/List` response (the fields the client reads). -/
structure ChatRow where
  jid : String
  title : String
  isGroupFlag : Bool

/-- One row of the `Group/List` response. -/
structure GroupRow where
  jid : String
  title : String

/-- Embeds the index update of `listChats` (lines 188–201): each chat is
indexed under its lowercased JID and its lowercased title. -/
def applyChatList (idx : RecIndex) (rows : List ChatRow) : RecIndex :=
  rows.foldl
    (fun m c =>
      let entry : RecipientEntry := ⟨c.jid, c.title, c.isGroupFlag⟩
      mapSet (mapSet m (lowerStr c.jid) entry) (lowerStr c.title) entry)
    idx

/-- Embeds the index update of `listGroups` (lines 245–259): the JID is
normalized through `formatGroupJid` and `isGroup` is forced true. -/
def applyGroupList (idx : RecIndex) (rows : List GroupRow) : RecIndex :=
  rows.foldl
    (fun m g =>
      let jid := formatGroupJid g.jid
      let entry : RecipientEntry := ⟨jid, g.title, true⟩
      mapSet (mapSet m (lowerStr jid) entry) (lowerStr g.title) entry)
    idx

/-- What `resolveRecipient` returns. -/
structure ResolvedRecipient where
  jid : String
  isGroup : Bool
  title : String

/-- Embeds `resolveRecipient`.  `chatsResp` / `groupsResp` are the listing
payloads a refresh would deliver (`none` models `success:false` / missing
`data`, which leaves the index untouched); the updated index is returned
alongside the result. -/
def resolveRecipient (chatsResp : Option (List ChatRow))
    (groupsResp : Option (List GroupRow)) (idx : RecIndex) (query : String) :
    Option ResolvedRecipient × RecIndex :=
  let normalized := jsTrim (lowerStr query)
  if occursIn "@localhost" normalized || occursIn "@muclight.localhost" normalized then
    (some
      ⟨normalized, isElymentsGroup normalized,
        jsOrS ((mapGet idx normalized).map RecipientEntry.title) normalized⟩,
      idx)
  else
    match mapGet idx normalized with
    | some e => (some ⟨e.jid, e.isGroup, e.title⟩, idx)
    | none =>
      let idx1 := match chatsResp with | some rows => applyChatList idx rows | none => idx
      let idx2 := match groupsResp with | some rows => applyGroupList idx1 rows | none => idx1
      match mapGet idx2 normalized with
      | some e => (some ⟨e.jid, e.isGroup, e.title⟩, idx2)
      | none => (none, idx2)

/-! ## Inbound policy gate (`monitor.ts` `handleMessage`)

The monitor's per-message decision is embedded as a function from the
resolved channel configuration, the pairing store, and the decoded event to
an admit/deny decision.  Host-side collaborators that live outside this
repository (`matchesMentionPatterns`, `hasControlCommand`,
`shouldHandleTextCommands`, the pairing store) enter as explicit data. -/

/-- One entry of `channels.elyments.groups` (fields the gate reads;
`systemPrompt`/`skills` only shape the reply and are omitted). -/
structure GroupCfg where
  enabled : Option Bool
  autoReply : Option Bool
  requireMention : Option Bool
  users : Option (List String)

/-- `channels.elyments.dm`. -/
structure ElymentsDmConfig where
  enabled : Option Bool
  policy : Option String
  allowFrom : Option (List String)

/-- The account configuration slice the monitor reads. -/
structure ElymentsAccountCfg where
  groupPolicy : Option String
  dm : Option ElymentsDmConfig
  groups : Option (List (String × GroupCfg))

/-- JS object indexing `groups[key]` (keys are unique in a config object). -/
def lookupGroup (groups : List (String × GroupCfg)) (key : String) : Option GroupCfg :=
  (groups.find? (fun p => p.1 = key)).map (fun p => p.2)

/-- The monitor's fixed inputs for one run: the session user, the startup
clock, the account config, the channel-wide command toggles, the pairing
store's allow list, and the host-side text predicates. -/
structure MonitorEnv where
  userId : String
  startupMs : Int
  account : ElymentsAccountCfg
  cmdsUseAccessGroups : Option Bool
  allowTextCommands : Bool
  mentionMatch : String → Bool
  hasControlCommand : String → Bool
  storeAllowFrom : List String

/-- The pairing store's pending-request keys: (channel, sender id) pairs. -/
abbrev PairingStore := List (String × String)

/-- Modelled from the spec: `upsertPairingRequest(channel, senderId, meta)`
of the host pairing store (not part of this repository) atomically
get-or-creates a request keyed by (channel, sender id) and reports
`created` exactly when the key was absent; the issued code itself plays no
role in the gate's decision and is not modelled. -/
def upsertChannelPairingRequest (store : PairingStore) (channel senderId : String) :
    PairingStore × Bool :=
  if store.any (fun p => p = (channel, senderId)) then (store, false)
  else ((channel, senderId) :: store, true)

/-- Modelled from the spec: `resolveCommandAuthorizedFromAuthorizers` of the
host (not part of this repository) gates command authorization on the
channel-wide access-groups toggle; with the toggle off commands are open,
with it on the sender must be allowed by a configured authorizer. -/
def resolveCommandAuthorizedFromAuthorizers (useAccessGroups configured allowed : Bool) : Bool :=
  if useAccessGroups then configured && allowed else true

/-- Embeds the DM `permitted` test (lines 113–123): the combined allow list
is non-empty and some entry is the wildcard, the lowercased sender id, the
lowercased full from-JID, or the lowercased bare JID (resource stripped). -/
def dmPermittedCheck (effectiveAllowFrom : List String) (senderId fromJid : String) : Bool :=
  !effectiveAllowFrom.isEmpty &&
    effectiveAllowFrom.any (fun entry =>
      entry == "*" || entry == lowerStr senderId || entry == lowerStr fromJid ||
        entry == lowerStr (headSeg '/' fromJid))

/-- Embeds the group allow-list stage (lines 154–179): `true` means the
message survives the stage.  The group is looked up by chat id, then by
sender id; it must exist and not be explicitly disabled; a non-empty
per-group user list must match the sender by wildcard, id, or display
name. -/
def groupAllowlistCheck (groups : List (String × GroupCfg))
    (chatId senderId senderDisplayName : String) : Bool :=
  match (lookupGroup groups chatId).orElse (fun _ => lookupGroup groups senderId) with
  | none => false
  | some gc =>
    if gc.enabled == some false then false
    else
      match gc.users with
      | some us =>
        if !us.isEmpty then
          us.any (fun entry =>
            entry == "*" || lowerStr entry == lowerStr senderId ||
              lowerStr entry == lowerStr senderDisplayName)
        else true
      | none => true

/-- Embeds the mention-requirement resolution (lines 188–194, matching the
plugin's `resolveRequireMention`): `autoReply: true` disables the
requirement, `autoReply: false` forces it, otherwise `requireMention`
defaults to required unless explicitly `false`. -/
def resolveShouldRequireMention (gci : GroupCfg) : Bool :=
  if gci.autoReply == some true then false
  else if gci.autoReply == some false then true
  else !(gci.requireMention == some false)

/-- Embeds the command allow test (lines 201–206): wildcard, lowercased
sender id, or lowercased full JID — with no bare-JID alternative. -/
def commandAllowCheck (effectiveAllowFrom : List String) (senderId fromJid : String) : Bool :=
  effectiveAllowFrom.any (fun entry =>
    entry == "*" || entry == lowerStr senderId || entry == lowerStr fromJid)

/-- The gate's outcome: whether the message is admitted to the reply
pipeline, whether a pairing notice went to the sender, and the pairing
store afterwards. -/
structure HandleDecision where
  admitted : Bool
  pairingNoticeSent : Bool
  store : PairingStore

/-- Embeds `handleMessage` (monitor.ts lines 81–230) up to the admit point:
the startup-time skip, self-skip, disabled-group-policy skip, empty-body
skip, the DM policy gate with pairing-notice issuance, the group allow-list
stage, and the mention requirement with its authorized-command bypass.
Config defaults mirror lines 70–74 (`groupPolicy ?? "allowlist"`,
`dm.enabled ?? true`, `dm.policy ?? "pairing"`, `allowFrom ?? []`) and line
200 (`useAccessGroups !== false`). -/
def handleMessage (env : MonitorEnv) (store : PairingStore) (ev : XmppMessageEvent) :
    HandleDecision :=
  let groupPolicy := env.account.groupPolicy.getD "allowlist"
  let dmEnabled := (env.account.dm.bind ElymentsDmConfig.enabled).getD true
  let dmPolicy := (env.account.dm.bind ElymentsDmConfig.policy).getD "pairing"
  let allowFrom := (env.account.dm.bind ElymentsDmConfig.allowFrom).getD []
  let groups := env.account.groups.getD []
  let deny : HandleDecision := ⟨false, false, store⟩
  if ev.timestamp < env.startupMs then deny else
  let fromJid := ev.fromJid
  let isGroup := isElymentsGroup fromJid
  let chatId := fromJid
  let senderId := extractUserId fromJid
  let senderDisplayName := jsOrS ev.senderName senderId
  if senderId = env.userId then deny else
  if isGroup && (groupPolicy == "disabled") then deny else
  let bodyText := jsTrim ev.body
  if bodyText = "" then deny else
  let effectiveAllowFrom := (allowFrom ++ env.storeAllowFrom).map (fun e => jsTrim (lowerStr e))
  -- DM policy gate (lines 109–151); `none` falls through to the rest
  let dmGate : Option HandleDecision :=
    if !isGroup then
      if !dmEnabled || (dmPolicy == "disabled") then some deny
      else if !(dmPolicy == "open") then
        if !(dmPermittedCheck effectiveAllowFrom senderId fromJid) then
          if dmPolicy == "pairing" then
            let r := upsertChannelPairingRequest store "elyments" senderId
            some ⟨false, r.2, r.1⟩
          else some deny
        else none
      else none
    else none
  match dmGate with
  | some d => d
  | none =>
    if isGroup && (groupPolicy == "allowlist") &&
        !(groupAllowlistCheck groups chatId senderId senderDisplayName) then deny else
    let groupConfigInfo :=
      ((lookupGroup groups chatId).orElse (fun _ => lookupGroup groups senderId)).getD
        ⟨none, none, none, none⟩
    let wasMentioned := env.mentionMatch bodyText
    let shouldRequireMention :=
      if isGroup then resolveShouldRequireMention groupConfigInfo else false
    let useAccessGroups := !(env.cmdsUseAccessGroups == some false)
    let senderAllowedForCommands := commandAllowCheck effectiveAllowFrom senderId fromJid
    let commandAuthorized :=
      resolveCommandAuthorizedFromAuthorizers useAccessGroups
        (!effectiveAllowFrom.isEmpty) senderAllowedForCommands
    if isGroup && env.allowTextCommands && env.hasControlCommand bodyText &&
        !commandAuthorized then deny else
    let shouldBypassMention :=
      env.allowTextCommands && isGroup && shouldRequireMention && !wasMentioned &&
        commandAuthorized && env.hasControlCommand bodyText
    if isGroup && shouldRequireMention && !wasMentioned && !shouldBypassMention then deny
    else ⟨true, false, store⟩

/-! ## Spec-side predicates (the claims' own phrasings) -/

/-- The DM allow-list match as C1 states it: a wildcard entry, the sender's
bare identifier, the full from-address, or the bare from-address matches
the combined static-plus-store allow list. -/
def dmSpecAllowMatch (staticAllow storeAllow : List String) (fromJid : String) : Prop :=
  ∃ e ∈ (staticAllow ++ storeAllow).map (fun x => jsTrim (lowerStr x)),
    e = "*" ∨ e = lowerStr (extractUserId fromJid) ∨ e = lowerStr fromJid ∨
      e = lowerStr (headSeg '/' fromJid)

/-- The command allow-list match as C2 states it: wildcard, sender id, or
full address. -/
def cmdSpecAllowMatch (staticAllow storeAllow : List String) (fromJid : String) : Prop :=
  ∃ e ∈ (staticAllow ++ storeAllow).map (fun x => jsTrim (lowerStr x)),
    e = "*" ∨ e = lowerStr (extractUserId fromJid) ∨ e = lowerStr fromJid

/-- The JSON-shape projection C5 speaks about: the string at `info.message`
of a parsed body, when present. -/
def infoMessageOf (p : JVal) : Option String :=
  ((p.getField "info").bind (fun i => i.getField "message")).bind JVal.asStr

/-- The string at `info.caption` of a parsed body, when present. -/
def infoCaptionOf (p : JVal) : Option String :=
  ((p.getField "info").bind (fun i => i.getField "caption")).bind JVal.asStr

/-- The direct-message decision of `handleMessage` in compact form
(`handleMessage_dm_eq` proves the gate reduces to it for non-group
events that pass the startup/self/body gates). -/
def dmDecision (dmEnabled : Bool) (dmPolicy : String) (eff : List String)
    (senderId fromJid : String) (store : PairingStore) : HandleDecision :=
  if !dmEnabled || dmPolicy == "disabled" then ⟨false, false, store⟩
  else if !(dmPolicy == "open") then
    if !(dmPermittedCheck eff senderId fromJid) then
      if dmPolicy == "pairing" then
        let r := upsertChannelPairingRequest store "elyments" senderId
        ⟨false, r.2, r.1⟩
      else ⟨false, false, store⟩
    else ⟨true, false, store⟩
  else ⟨true, false, store⟩

/-- The group-message decision of `handleMessage` in compact form
(`handleMessage_group_eq` proves the gate reduces to it for group events
that pass the startup/self/body gates). -/
def groupDecision (env : MonitorEnv) (store : PairingStore)
    (chatId senderId senderDisplayName bodyText : String) : HandleDecision :=
  let groupPolicy := env.account.groupPolicy.getD "allowlist"
  let groups := env.account.groups.getD []
  let eff := ((env.account.dm.bind ElymentsDmConfig.allowFrom).getD [] ++
    env.storeAllowFrom).map (fun e => jsTrim (lowerStr e))
  if groupPolicy == "disabled" then ⟨false, false, store⟩
  else if (groupPolicy == "allowlist") &&
      !(groupAllowlistCheck groups chatId senderId senderDisplayName) then
    ⟨false, false, store⟩
  else
    let gci := ((lookupGroup groups chatId).orElse
      (fun _ => lookupGroup groups senderId)).getD ⟨none, none, none, none⟩
    let wasMentioned := env.mentionMatch bodyText
    let shouldRequireMention := resolveShouldRequireMention gci
    let useAccessGroups := !(env.cmdsUseAccessGroups == some false)
    let commandAuthorized := resolveCommandAuthorizedFromAuthorizers useAccessGroups
      (!eff.isEmpty) (commandAllowCheck eff senderId chatId)
    if env.allowTextCommands && env.hasControlCommand bodyText && !commandAuthorized then
      ⟨false, false, store⟩
    else if shouldRequireMention && !wasMentioned &&
        !(env.allowTextCommands && shouldRequireMention && !wasMentioned &&
          commandAuthorized && env.hasControlCommand bodyText) then
      ⟨false, false, store⟩
    else ⟨true, false, store⟩

/-- A remainder that cannot extend a scanned integer literal: empty or
headed by a non-digit.  Every delimiter the renderer emits after a number
(`,`, `]`, `}`, end of input) qualifies. -/
def notDigitHead : List Char → Bool
  | [] => true
  | c :: _ => !isDigitCh c

/-! ## Codec lemmas: digits -/

theorem natDigitCharsAux_fuel :
    ∀ (f1 : Nat) (f2 n : Nat), n < f1 → n < f2 →
      natDigitCharsAux f1 n = natDigitCharsAux f2 n := by
  intro f1
  induction f1 with
  | zero => intro f2 n h1 _; omega
  | succ f ih =>
    intro f2 n h1 h2
    cases f2 with
    | zero => omega
    | succ f2' =>
      simp only [natDigitCharsAux]
      by_cases h : n < 10
      · simp [h]
      · have hn : 0 < n := by omega
        have hq : n / 10 < n := Nat.div_lt_self hn (by omega)
        simp only [if_neg h]
        rw [ih f2' (n / 10) (by omega) (by omega)]

/-- One unfolding of `natDigitChars` in its natural recursive form. -/
theorem natDigitChars_unfold (n : Nat) :
    natDigitChars n =
      if n < 10 then [digitChar10 n]
      else natDigitChars (n / 10) ++ [digitChar10 (n % 10)] := by
  by_cases h : n < 10
  · simp [natDigitChars, natDigitCharsAux, h]
  · have hq : n / 10 < n := Nat.div_lt_self (by omega) (by omega)
    conv_lhs => rw [natDigitChars]
    rw [natDigitCharsAux, if_neg h,
      natDigitCharsAux_fuel n (n / 10 + 1) (n / 10) (by omega) (by omega)]
    simp [natDigitChars, h]

theorem digitChar10_spec (k : Nat) (h : k < 10) :
    isDigitCh (digitChar10 k) = true ∧ (digitChar10 k).toNat - '0'.toNat = k := by
  interval_cases k <;> exact ⟨by decide, by decide⟩

theorem natDigitChars_ne_nil (n : Nat) : natDigitChars n ≠ [] := by
  rw [natDigitChars_unfold]
  by_cases h : n < 10 <;> simp [h]

theorem natDigitChars_all_digits (n : Nat) :
    ∀ c ∈ natDigitChars n, isDigitCh c = true := by
  induction n using Nat.strongRecOn with
  | ind n ih =>
    rw [natDigitChars_unfold]
    by_cases h : n < 10
    · simp only [if_pos h, List.mem_singleton]
      intro c hc; subst hc; exact (digitChar10_spec n h).1
    · simp only [if_neg h, List.mem_append, List.mem_singleton]
      intro c hc
      rcases hc with hc | hc
      · exact ih (n / 10) (Nat.div_lt_self (by omega) (by omega)) c hc
      · subst hc; exact (digitChar10_spec (n % 10) (Nat.mod_lt _ (by omega))).1

theorem digitsVal_natDigitChars (n : Nat) : digitsVal (natDigitChars n) = n := by
  induction n using Nat.strongRecOn with
  | ind n ih =>
    rw [natDigitChars_unfold]
    by_cases h : n < 10
    · simp only [if_pos h, digitsVal, List.foldl_cons, List.foldl_nil]
      have := (digitChar10_spec n h).2
      omega
    · simp only [if_neg h, digitsVal, List.foldl_append, List.foldl_cons, List.foldl_nil]
      have hrec := ih (n / 10) (Nat.div_lt_self (by omega) (by omega))
      simp only [digitsVal] at hrec
      rw [hrec]
      have := (digitChar10_spec (n % 10) (Nat.mod_lt _ (by omega))).2
      omega

theorem scanDigits_stop {l : List Char} (h : notDigitHead l = true) :
    scanDigits l = ([], l) := by
  cases l with
  | nil => rfl
  | cons c t =>
    simp only [notDigitHead, Bool.not_eq_true'] at h
    simp [scanDigits, h]

theorem scanDigits_run (ds : List Char) (hds : ∀ c ∈ ds, isDigitCh c = true)
    (rest : List Char) (hrest : notDigitHead rest = true) :
    scanDigits (ds ++ rest) = (ds, rest) := by
  induction ds with
  | nil => simpa using scanDigits_stop hrest
  | cons c t ih =>
    have hc : isDigitCh c = true := hds c (by simp)
    have ht := ih (fun x hx => hds x (by simp [hx]))
    simp [scanDigits, hc, ht]

theorem natDigitChars_cons (n : Nat) :
    ∃ c t, natDigitChars n = c :: t ∧ isDigitCh c = true := by
  cases h : natDigitChars n with
  | nil => exact absurd h (natDigitChars_ne_nil n)
  | cons c t =>
    refine ⟨c, t, rfl, natDigitChars_all_digits n c ?_⟩
    rw [h]; exact List.mem_cons_self c t

theorem digit_ne_minus {c : Char} (h : isDigitCh c = true) : c ≠ '-' := by
  intro hc; subst hc; exact absurd h (by decide)

/-- Scanning a rendered integer recovers the integer exactly, whenever the
remainder cannot extend the digit run. -/
theorem scanInt_intChars (i : Int) (rest : List Char) (hr : notDigitHead rest = true) :
    scanInt (intChars i ++ rest) = some (i, rest) := by
  obtain ⟨c, t, hct, hc⟩ := natDigitChars_cons i.natAbs
  have hval : digitsVal (c :: t) = i.natAbs := by
    rw [← hct]; exact digitsVal_natDigitChars i.natAbs
  have hscan : scanDigits (c :: (t ++ rest)) = (c :: t, rest) := by
    have := scanDigits_run _ (natDigitChars_all_digits i.natAbs) rest hr
    rwa [hct, List.cons_append] at this
  by_cases hi : i < 0
  · have harg : intChars i ++ rest = '-' :: (c :: (t ++ rest)) := by
      simp [intChars, hi, hct]
    rw [harg]
    simp only [scanInt, hscan, Option.some.injEq, Prod.mk.injEq]
    exact ⟨by omega, trivial⟩
  · have harg : intChars i ++ rest = c :: (t ++ rest) := by
      simp [intChars, hi, hct]
    rw [harg, scanInt.eq_def]
    have hcm : c ≠ '-' := digit_ne_minus hc
    split
    · rename_i cs1 heq
      injection heq with h1 _
      exact absurd h1 hcm
    · rw [hscan]
      simp only [hval, Option.some.injEq, Prod.mk.injEq]
      exact ⟨by omega, trivial⟩

/-! ## Codec lemmas: strings -/

theorem hexCharVal_hexDigitChar (k : Nat) (h : k < 16) :
    hexCharVal (hexDigitChar k) = some k := by
  interval_cases k <;> decide

/-- Scanning one escaped character prepends that character to whatever the
rest of the scan produces. -/
theorem scanStr_escChar (c : Char) (l : List Char) :
    scanStr (jsEscChar c ++ l) =
      match scanStr l with
      | some (content, r) => some (c :: content, r)
      | none => none := by
  by_cases h1 : c = '"'
  · subst h1; rfl
  by_cases h2 : c = '\\'
  · subst h2; rfl
  by_cases h3 : c = '\x08'
  · subst h3; rfl
  by_cases h4 : c = '\t'
  · subst h4; rfl
  by_cases h5 : c = '\n'
  · subst h5; rfl
  by_cases h6 : c = '\x0c'
  · subst h6; rfl
  by_cases h7 : c = '\r'
  · subst h7; rfl
  by_cases h8 : c.toNat < 32
  · have hesc : jsEscChar c ++ l =
        '\\' :: 'u' :: '0' :: '0' :: hexDigitChar (c.toNat / 16) ::
          hexDigitChar (c.toNat % 16) :: l := by
      simp [jsEscChar, h1, h2, h3, h4, h5, h6, h7, h8]
    rw [hesc]
    have hhi : hexCharVal (hexDigitChar (c.toNat / 16)) = some (c.toNat / 16) :=
      hexCharVal_hexDigitChar _ (by omega)
    have hlo : hexCharVal (hexDigitChar (c.toNat % 16)) = some (c.toNat % 16) :=
      hexCharVal_hexDigitChar _ (Nat.mod_lt _ (by omega))
    have harith : ((0 * 16 + 0) * 16 + c.toNat / 16) * 16 + c.toNat % 16 = c.toNat := by
      omega
    have h0 : hexCharVal '0' = some 0 := by decide
    simp only [scanStr, hhi, hlo, h0, harith, Char.ofNat_toNat]
  · have hesc : jsEscChar c ++ l = c :: l := by
      simp [jsEscChar, h1, h2, h3, h4, h5, h6, h7, h8]
    rw [hesc, scanStr.eq_def]
    split
    · rename_i heq
      injection heq with hh _
      exact absurd hh h1
    · rename_i a b cc d r heq
      injection heq with hh _
      exact absurd hh h2
    · rename_i e r heq
      injection heq with hh _
      exact absurd hh h2
    · rename_i c' r heq
      injection heq with hh ht
      subst hh; subst ht; rfl
    · rename_i heq
      exact absurd heq (by simp)

/-- Scanning a fully escaped string body stops exactly at the closing quote
and recovers the original characters. -/
theorem scanStr_escStr (s : List Char) (rest : List Char) :
    scanStr (jsEscStr s ++ '"' :: rest) = some (s, rest) := by
  induction s with
  | nil => rfl
  | cons c cs ih =>
    rw [jsEscStr, List.flatMap_cons, List.append_assoc]
    rw [show cs.flatMap jsEscChar = jsEscStr cs from rfl]
    rw [scanStr_escChar, ih]

/-! ## Codec lemmas: every rendered value starts with a safe character -/

theorem renderJVal_head (v : JVal) :
    ∃ c t, renderJVal v = c :: t ∧ c ≠ ']' ∧ c ≠ '}' := by
  cases v with
  | null => exact ⟨'n', _, rfl, by decide, by decide⟩
  | jbool b => cases b with
    | true => exact ⟨'t', _, rfl, by decide, by decide⟩
    | false => exact ⟨'f', _, rfl, by decide, by decide⟩
  | jstr s => exact ⟨'"', _, rfl, by decide, by decide⟩
  | jarr items => exact ⟨'[', _, rfl, by decide, by decide⟩
  | jobj fields => exact ⟨'{', _, rfl, by decide, by decide⟩
  | jint n =>
    by_cases hn : n < 0
    · refine ⟨'-', natDigitChars n.natAbs, ?_, by decide, by decide⟩
      simp [renderJVal, intChars, hn]
    · obtain ⟨c, t, hct, hc⟩ := natDigitChars_cons n.natAbs
      refine ⟨c, t, ?_, ?_, ?_⟩
      · simp [renderJVal, intChars, hn, hct]
      · intro h; subst h; exact absurd hc (by decide)
      · intro h; subst h; exact absurd hc (by decide)

theorem renderItems_cons_head (e : JVal) (es : List JVal) :
    ∃ c t, renderItems (e :: es) = c :: t ∧ c ≠ ']' ∧ c ≠ '}' := by
  obtain ⟨c, t, hct, h1, h2⟩ := renderJVal_head e
  cases es with
  | nil => exact ⟨c, t, by simp [renderItems, hct], h1, h2⟩
  | cons w ws =>
    exact ⟨c, t ++ ',' :: renderItems (w :: ws), by simp [renderItems, hct], h1, h2⟩

theorem renderFields_cons_head (kv : String × JVal) (fs : List (String × JVal)) :
    ∃ t, renderFields (kv :: fs) = '"' :: t := by
  obtain ⟨k, v⟩ := kv
  cases fs with
  | nil => exact ⟨_, rfl⟩
  | cons f2 fs2 => exact ⟨_, rfl⟩

/-! ## Codec lemmas: parser entry points on a variable head character -/

/-- With a head character that starts no literal, string, array, or object,
the value parser hands the input to the integer scanner. -/
theorem parseJVal_num_entry (f : Nat) (c : Char) (t : List Char)
    (h1 : c ≠ 'n') (h2 : c ≠ 't') (h3 : c ≠ 'f') (h4 : c ≠ '"')
    (h5 : c ≠ '[') (h6 : c ≠ '{') (hg : c = '-' ∨ isDigitCh c) :
    parseJVal (f + 1) (c :: t) =
      match scanInt (c :: t) with
      | some (n, r1) => some (.jint n, r1)
      | none => none := by
  have step : parseJVal (f + 1) (c :: t) =
      match c :: t with
      | 'n' :: 'u' :: 'l' :: 'l' :: r => some (JVal.null, r)
      | 't' :: 'r' :: 'u' :: 'e' :: r => some (JVal.jbool true, r)
      | 'f' :: 'a' :: 'l' :: 's' :: 'e' :: r => some (JVal.jbool false, r)
      | '"' :: r =>
        (match scanStr r with
         | some (content, r1) => some (JVal.jstr ⟨content⟩, r1)
         | none => none)
      | '[' :: r =>
        (match r with
         | ']' :: r1 => some (JVal.jarr [], r1)
         | _ =>
           match parseItems f r with
           | some (items, r1) => some (JVal.jarr items, r1)
           | none => none)
      | '{' :: r =>
        (match r with
         | '}' :: r1 => some (JVal.jobj [], r1)
         | _ =>
           match parseFields f r with
           | some (fs, r1) => some (JVal.jobj fs, r1)
           | none => none)
      | c' :: r =>
        if c' = '-' ∨ isDigitCh c' then
          match scanInt (c' :: r) with
          | some (n, r1) => some (JVal.jint n, r1)
          | none => none
        else none
      | [] => none := rfl
  rw [step]
  split
  · rename_i heq; injection heq with hh _; exact absurd hh h1
  · rename_i heq; injection heq with hh _; exact absurd hh h2
  · rename_i heq; injection heq with hh _; exact absurd hh h3
  · rename_i heq; injection heq with hh _; exact absurd hh h4
  · rename_i heq; injection heq with hh _; exact absurd hh h5
  · rename_i heq; injection heq with hh _; exact absurd hh h6
  · rename_i c' r heq
    injection heq with hh ht
    subst hh; subst ht
    simp [hg]
  · rename_i heq
    exact absurd heq (by simp)

/-- With a non-`]` head after the bracket, the array branch of the value
parser reduces to wrapping `parseItems`. -/
theorem parseJVal_arr_entry (f : Nat) (c : Char) (t : List Char) (hc : c ≠ ']') :
    parseJVal (f + 1) ('[' :: c :: t) =
      match parseItems f (c :: t) with
      | some (items, r1) => some (.jarr items, r1)
      | none => none := by
  have step : parseJVal (f + 1) ('[' :: c :: t) =
      match c :: t with
      | ']' :: r1 => some (.jarr [], r1)
      | _ =>
        match parseItems f (c :: t) with
        | some (items, r1) => some (.jarr items, r1)
        | none => none := rfl
  rw [step]
  split
  · rename_i heq; injection heq with hh _; exact absurd hh hc
  · rfl

mutual
/-- Parsing a rendered value recovers it exactly: the value half of the
codec round-trip, for any remainder that cannot extend a number literal. -/
theorem rtVal : ∀ (v : JVal) (fuel : Nat) (rest : List Char),
    (renderJVal v).length < fuel → notDigitHead rest = true →
    parseJVal fuel (renderJVal v ++ rest) = some (v, rest)
  | .null, fuel, rest, hf, _ => by
    cases fuel with
    | zero => simp [renderJVal] at hf
    | succ f => rfl
  | .jbool b, fuel, rest, hf, _ => by
    cases fuel with
    | zero => cases b <;> simp [renderJVal] at hf
    | succ f => cases b <;> rfl
  | .jint n, fuel, rest, hf, hr => by
    cases fuel with
    | zero => exact absurd hf (Nat.not_lt_zero _)
    | succ f =>
      by_cases hn : n < 0
      · have harg : renderJVal (.jint n) ++ rest =
            '-' :: (natDigitChars n.natAbs ++ rest) := by
          simp [renderJVal, intChars, hn]
        have hscan : scanInt ('-' :: (natDigitChars n.natAbs ++ rest)) = some (n, rest) := by
          have := scanInt_intChars n rest hr
          rwa [show intChars n ++ rest = '-' :: (natDigitChars n.natAbs ++ rest) from by
            simp [intChars, hn]] at this
        rw [harg, parseJVal_num_entry f '-' _ (by decide) (by decide) (by decide) (by decide)
          (by decide) (by decide) (Or.inl rfl), hscan]
      · obtain ⟨c, t, hct, hc⟩ := natDigitChars_cons n.natAbs
        have harg : renderJVal (.jint n) ++ rest = c :: (t ++ rest) := by
          simp [renderJVal, intChars, hn, hct]
        have hscan : scanInt (c :: (t ++ rest)) = some (n, rest) := by
          have := scanInt_intChars n rest hr
          rwa [show intChars n ++ rest = c :: (t ++ rest) from by
            simp [intChars, hn, hct]] at this
        rw [harg, parseJVal_num_entry f c _
          (by intro h; subst h; exact absurd hc (by decide))
          (by intro h; subst h; exact absurd hc (by decide))
          (by intro h; subst h; exact absurd hc (by decide))
          (by intro h; subst h; exact absurd hc (by decide))
          (by intro h; subst h; exact absurd hc (by decide))
          (by intro h; subst h; exact absurd hc (by decide))
          (Or.inr hc), hscan]
  | .jstr s, fuel, rest, hf, _ => by
    cases fuel with
    | zero => exact absurd hf (Nat.not_lt_zero _)
    | succ f =>
      have harg : renderJVal (.jstr s) ++ rest =
          '"' :: (jsEscStr s.data ++ '"' :: rest) := by
        simp [renderJVal]
      have step : ∀ r : List Char, parseJVal (f + 1) ('"' :: r) =
          match scanStr r with
          | some (content, r1) => some (JVal.jstr ⟨content⟩, r1)
          | none => none := fun _ => rfl
      rw [harg, step, scanStr_escStr]
  | .jarr [], fuel, rest, hf, _ => by
    cases fuel with
    | zero => simp [renderJVal, renderItems] at hf
    | succ f => rfl
  | .jarr (e :: es), fuel, rest, hf, _ => by
    cases fuel with
    | zero => exact absurd hf (Nat.not_lt_zero _)
    | succ f =>
      obtain ⟨c, t, hct, hc, _⟩ := renderItems_cons_head e es
      have harg : renderJVal (.jarr (e :: es)) ++ rest =
          '[' :: (c :: (t ++ ']' :: rest)) := by
        simp [renderJVal, hct]
      have hlen : (renderItems (e :: es)).length + 1 < f := by
        have : (renderJVal (.jarr (e :: es))).length
            = (renderItems (e :: es)).length + 2 := by
          simp [renderJVal]
        omega
      have hitems := rtItems e es f rest hlen
      rw [hct, List.cons_append] at hitems
      rw [harg, parseJVal_arr_entry f c _ hc, hitems]
  | .jobj [], fuel, rest, hf, _ => by
    cases fuel with
    | zero => simp [renderJVal, renderFields] at hf
    | succ f => rfl
  | .jobj (kv :: fs), fuel, rest, hf, _ => by
    cases fuel with
    | zero => exact absurd hf (Nat.not_lt_zero _)
    | succ f =>
      obtain ⟨t, hct⟩ := renderFields_cons_head kv fs
      have harg : renderJVal (.jobj (kv :: fs)) ++ rest =
          '{' :: ('"' :: (t ++ '}' :: rest)) := by
        simp [renderJVal, hct]
      have hlen : (renderFields (kv :: fs)).length + 1 < f := by
        have : (renderJVal (.jobj (kv :: fs))).length
            = (renderFields (kv :: fs)).length + 2 := by
          simp [renderJVal]
        omega
      have hfields := rtFields kv fs f rest hlen
      rw [hct, List.cons_append] at hfields
      have step : ∀ r : List Char, parseJVal (f + 1) ('{' :: ('"' :: r)) =
          match parseFields f ('"' :: r) with
          | some (fls, r1) => some (JVal.jobj fls, r1)
          | none => none := fun _ => rfl
      rw [harg, step, hfields]
  termination_by v _ _ _ _ => sizeOf v

/-- Parsing rendered array items (plus the closing bracket) recovers them. -/
theorem rtItems : ∀ (v : JVal) (vs : List JVal) (fuel : Nat) (rest : List Char),
    (renderItems (v :: vs)).length + 1 < fuel →
    parseItems fuel (renderItems (v :: vs) ++ ']' :: rest) = some (v :: vs, rest)
  | v, [], fuel, rest, hf => by
    cases fuel with
    | zero => omega
    | succ f =>
      have hlen : (renderJVal v).length < f := by
        simp only [renderItems] at hf; omega
      have hv := rtVal v f (']' :: rest) hlen rfl
      have harg : renderItems [v] ++ ']' :: rest = renderJVal v ++ ']' :: rest := by
        simp [renderItems]
      have step : ∀ cs : List Char, parseItems (f + 1) cs =
          match parseJVal f cs with
          | none => none
          | some (w, r) =>
            match r with
            | ',' :: r1 =>
              (match parseItems f r1 with
               | some (ws, r2) => some (w :: ws, r2)
               | none => none)
            | ']' :: r1 => some ([w], r1)
            | _ => none := fun _ => rfl
      rw [harg, step, hv]
      rfl
  | v, w :: ws, fuel, rest, hf => by
    cases fuel with
    | zero => omega
    | succ f =>
      simp only [renderItems, List.length_append, List.length_cons] at hf
      have hlenv : (renderJVal v).length < f := by omega
      have hlenw : (renderItems (w :: ws)).length + 1 < f := by omega
      have hv := rtVal v f (',' :: (renderItems (w :: ws) ++ ']' :: rest)) hlenv rfl
      have hrec := rtItems w ws f rest hlenw
      have harg : renderItems (v :: w :: ws) ++ ']' :: rest =
          renderJVal v ++ ',' :: (renderItems (w :: ws) ++ ']' :: rest) := by
        simp [renderItems]
      have step : ∀ cs : List Char, parseItems (f + 1) cs =
          match parseJVal f cs with
          | none => none
          | some (x, r) =>
            match r with
            | ',' :: r1 =>
              (match parseItems f r1 with
               | some (xs, r2) => some (x :: xs, r2)
               | none => none)
            | ']' :: r1 => some ([x], r1)
            | _ => none := fun _ => rfl
      rw [harg, step, hv]
      simp only [hrec]
  termination_by v vs _ _ _ => sizeOf v + sizeOf vs

/-- Parsing rendered object members (plus the closing brace) recovers them. -/
theorem rtFields : ∀ (kv : String × JVal) (fs : List (String × JVal)) (fuel : Nat)
    (rest : List Char),
    (renderFields (kv :: fs)).length + 1 < fuel →
    parseFields fuel (renderFields (kv :: fs) ++ '}' :: rest) = some (kv :: fs, rest)
  | (k, v), [], fuel, rest, hf => by
    cases fuel with
    | zero => omega
    | succ f =>
      have hlen : (renderJVal v).length < f := by
        simp only [renderFields, List.length_cons, List.length_append] at hf; omega
      have hv := rtVal v f ('}' :: rest) hlen rfl
      have harg : renderFields [(k, v)] ++ '}' :: rest =
          '"' :: (jsEscStr k.data ++ '"' :: (':' :: (renderJVal v ++ '}' :: rest))) := by
        simp [renderFields]
      have step : ∀ r : List Char, parseFields (f + 1) ('"' :: r) =
          match scanStr r with
          | none => none
          | some (key, r1) =>
            match r1 with
            | ':' :: r2 =>
              (match parseJVal f r2 with
               | none => none
               | some (w, r3) =>
                 match r3 with
                 | ',' :: r4 =>
                   (match parseFields f r4 with
                    | some (gs, r5) => some ((⟨key⟩, w) :: gs, r5)
                    | none => none)
                 | '}' :: r4 => some ([(⟨key⟩, w)], r4)
                 | _ => none)
            | _ => none := fun _ => rfl
      rw [harg, step, scanStr_escStr]
      simp only [hv]
  | (k, v), f2 :: fs2, fuel, rest, hf => by
    cases fuel with
    | zero => omega
    | succ f =>
      have hsplit : renderFields ((k, v) :: f2 :: fs2) =
          '"' :: (jsEscStr k.data ++ '"' :: (':' :: (renderJVal v ++
            ',' :: renderFields (f2 :: fs2)))) := by
        obtain ⟨k2, v2⟩ := f2
        simp [renderFields]
      rw [hsplit] at hf
      simp only [List.length_cons, List.length_append] at hf
      have hlenv : (renderJVal v).length < f := by omega
      have hlenf : (renderFields (f2 :: fs2)).length + 1 < f := by omega
      have hv := rtVal v f (',' :: (renderFields (f2 :: fs2) ++ '}' :: rest)) hlenv rfl
      have hrec := rtFields f2 fs2 f rest hlenf
      have harg : renderFields ((k, v) :: f2 :: fs2) ++ '}' :: rest =
          '"' :: (jsEscStr k.data ++ '"' :: (':' :: (renderJVal v ++
            ',' :: (renderFields (f2 :: fs2) ++ '}' :: rest)))) := by
        rw [hsplit]
        simp
      have step : ∀ r : List Char, parseFields (f + 1) ('"' :: r) =
          match scanStr r with
          | none => none
          | some (key, r1) =>
            match r1 with
            | ':' :: r2 =>
              (match parseJVal f r2 with
               | none => none
               | some (w, r3) =>
                 match r3 with
                 | ',' :: r4 =>
                   (match parseFields f r4 with
                    | some (gs, r5) => some ((⟨key⟩, w) :: gs, r5)
                    | none => none)
                 | '}' :: r4 => some ([(⟨key⟩, w)], r4)
                 | _ => none)
            | _ => none := fun _ => rfl
      rw [harg, step, scanStr_escStr]
      simp only [hv, hrec]
  termination_by kv fs _ _ _ => sizeOf kv + sizeOf fs
end

/-- The codec round-trip at the `String` boundary: `JSON.parse` undoes
`JSON.stringify` on every value. -/
theorem jsonParse_stringify (v : JVal) : jsonParse (jsonStringify v) = some v := by
  have hv := rtVal v ((renderJVal v).length + 1) [] (by omega) rfl
  rw [List.append_nil] at hv
  have step : jsonParse (jsonStringify v) =
      match parseJVal ((renderJVal v).length + 1) (renderJVal v) with
      | some (w, []) => some w
      | _ => none := rfl
  rw [step, hv]

/-! ## Generic helpers -/

/-- The code's `list.length > 0 && list.some(p)` test is just an existential
over the list (a match forces the list non-empty). -/
theorem nonempty_any_iff (l : List String) (p : String → Bool) :
    (!l.isEmpty && l.any p) = true ↔ ∃ x ∈ l, p x = true := by
  cases l <;> simp

theorem takeWhile_append_all {α : Type} {p : α → Bool} {l1 l2 : List α}
    (h : ∀ x ∈ l1, p x = true) :
    List.takeWhile p (l1 ++ l2) = l1 ++ List.takeWhile p l2 := by
  induction l1 with
  | nil => simp
  | cons a t ih =>
    have ha : p a = true := h a (by simp)
    simp [List.takeWhile_cons, ha, ih (fun x hx => h x (by simp [hx]))]

/-! ## The policy gate reduces to its compact DM and group forms -/

theorem handleMessage_dm_eq (env : MonitorEnv) (store : PairingStore)
    (ev : XmppMessageEvent)
    (hng : isElymentsGroup ev.fromJid = false)
    (hself : extractUserId ev.fromJid ≠ env.userId)
    (hts : ¬ ev.timestamp < env.startupMs)
    (hbody : jsTrim ev.body ≠ "") :
    handleMessage env store ev =
      dmDecision ((env.account.dm.bind ElymentsDmConfig.enabled).getD true)
        ((env.account.dm.bind ElymentsDmConfig.policy).getD "pairing")
        (((env.account.dm.bind ElymentsDmConfig.allowFrom).getD [] ++ env.storeAllowFrom).map
          (fun e => jsTrim (lowerStr e)))
        (extractUserId ev.fromJid) ev.fromJid store := by
  unfold handleMessage dmDecision
  by_cases h1 : (!((env.account.dm.bind ElymentsDmConfig.enabled).getD true) ||
      ((env.account.dm.bind ElymentsDmConfig.policy).getD "pairing") == "disabled") = true
  · simp [hng, hself, hts, hbody, h1]
  · by_cases h2 : (((env.account.dm.bind ElymentsDmConfig.policy).getD "pairing")
        == "open") = true
    · simp [hng, hself, hts, hbody, h1, h2]
    · simp only [Bool.not_eq_true] at h1 h2
      simp [hng, hself, hts, hbody, h1, h2]
      by_cases h3 : dmPermittedCheck
          (List.map (fun e => jsTrim (lowerStr e))
            ((env.account.dm.bind ElymentsDmConfig.allowFrom).getD []) ++
            List.map (fun e => jsTrim (lowerStr e)) env.storeAllowFrom)
          (extractUserId ev.fromJid) ev.fromJid = false
      · by_cases h4 : (env.account.dm.bind ElymentsDmConfig.policy).getD "pairing" = "pairing"
        · simp [h3, h4]
        · simp [h3, h4]
      · simp [h3]

theorem handleMessage_group_eq (env : MonitorEnv) (store : PairingStore)
    (ev : XmppMessageEvent)
    (hg : isElymentsGroup ev.fromJid = true)
    (hself : extractUserId ev.fromJid ≠ env.userId)
    (hts : ¬ ev.timestamp < env.startupMs)
    (hbody : jsTrim ev.body ≠ "") :
    handleMessage env store ev =
      groupDecision env store ev.fromJid (extractUserId ev.fromJid)
        (jsOrS ev.senderName (extractUserId ev.fromJid)) (jsTrim ev.body) := by
  unfold handleMessage groupDecision
  by_cases h1 : (((env.account.groupPolicy.getD "allowlist") == "disabled")) = true
  · simp [hg, hself, hts, hbody, h1]
  · by_cases h2 : (((env.account.groupPolicy.getD "allowlist") == "allowlist") &&
        !(groupAllowlistCheck (env.account.groups.getD []) ev.fromJid
          (extractUserId ev.fromJid)
          (jsOrS ev.senderName (extractUserId ev.fromJid)))) = true
    · simp [hg, hself, hts, hbody, h1, h2]
    · simp only [Bool.not_eq_true] at h1 h2
      simp [hg, hself, hts, hbody, h1, h2]

/-! ## Claim C10 -/

/-- C10: for every non-empty user id with no `@`, formatting it into a
direct-message JID and extracting the user id back is the identity. -/
theorem claim_C10_jid_roundtrip (id : String) (hne : id ≠ "")
    (hat : id.data.contains '@' = false) :
    extractUserId (formatDirectJid id) = id := by
  have hmem : '@' ∉ id.data := by simpa using hat
  have hfmt : formatDirectJid id = id ++ "@localhost" := by
    unfold formatDirectJid
    rw [hat]
    simp
  have hdata : (id ++ "@localhost").data = id.data ++ ('@' :: "localhost".data) :=
    String.data_append ..
  have hall : ∀ c ∈ id.data, (fun c => decide (c ≠ '@')) c = true := by
    intro c hc
    simp only [decide_eq_true_iff]
    intro h
    subst h
    exact hmem hc
  have htake : List.takeWhile (fun c => decide (c ≠ '@'))
      (id.data ++ ('@' :: "localhost".data)) = id.data := by
    rw [takeWhile_append_all hall]
    simp [List.takeWhile_cons]
  have hseg : headSeg '@' (id ++ "@localhost") = id := by
    apply String.ext
    show (List.takeWhile (fun c => decide (c ≠ '@')) (id ++ "@localhost").data) = id.data
    rw [hdata, htake]
  rw [hfmt]
  unfold extractUserId
  rw [hseg]
  simp [hne]

/-- Witness for C10 at a concrete user id. -/
theorem claim_C10_jid_roundtrip_witness :
    extractUserId (formatDirectJid "alice77") = "alice77" :=
  claim_C10_jid_roundtrip "alice77" (by decide) (by decide)

/-! ## Claim C4 -/

/-- C4: one invocation of `withAutoRefresh` runs the wrapped operation at
most twice; the second run happens exactly when the first failed with an
authorization-shaped error (message containing `401`, `unauthorized`, or
`expired`) and the refresh then succeeded with a session; a
non-authorization failure, and a failure with no successful refresh,
re-throw the original error, and the retried run's outcome — success or
failure — is returned as-is. -/
theorem claim_C4_withAutoRefresh {T : Type} (ctx : AuthCtx T) :
    (withAutoRefresh ctx).2 ≤ 2 /\
    ((withAutoRefresh ctx).2 = 2 ↔ ∃ s msg s2, ctx.getValidSession = .ok s /\
      ctx.op 0 s = .error msg /\ isAuthShapedError msg = true /\
      ctx.refreshSession = .ok s2) /\
    (∀ s msg, ctx.getValidSession = .ok s → ctx.op 0 s = .error msg →
      isAuthShapedError msg = false → (withAutoRefresh ctx).1 = .error msg) /\
    (∀ s msg s2, ctx.getValidSession = .ok s → ctx.op 0 s = .error msg →
      isAuthShapedError msg = true → ctx.refreshSession = .ok s2 →
      (withAutoRefresh ctx).1 = ctx.op 1 s2) /\
    (∀ s msg e2, ctx.getValidSession = .ok s → ctx.op 0 s = .error msg →
      isAuthShapedError msg = true → ctx.refreshSession = .error e2 →
      (withAutoRefresh ctx).1 = .error msg) := by
  cases hgv : ctx.getValidSession with
  | error e =>
    have hred : withAutoRefresh ctx = (.error (jsOrStr e "No valid session"), 0) := by
      unfold withAutoRefresh
      rw [hgv]
    rw [hred]
    refine ⟨by omega, ?_, ?_, ?_, ?_⟩
    · constructor
      · intro h; exact absurd h (by simp)
      · rintro ⟨s, msg, s2, hs, _⟩; exact absurd hs (by simp)
    · intro s msg hs _ _; exact absurd hs (by simp)
    · intro s msg s2 hs _ _ _; exact absurd hs (by simp)
    · intro s msg e2 hs _ _ _; exact absurd hs (by simp)
  | ok s =>
    cases hop : ctx.op 0 s with
    | ok v =>
      have hred : withAutoRefresh ctx = (.ok v, 1) := by
        simp [withAutoRefresh, hgv, hop]
      rw [hred]
      refine ⟨by omega, ?_, ?_, ?_, ?_⟩
      · constructor
        · intro h; exact absurd h (by simp)
        · rintro ⟨s2, msg, s3, hs, hmsg, _⟩
          injection hs with hs
          subst hs
          rw [hop] at hmsg
          exact absurd hmsg (by simp)
      · intro s2 msg hs hmsg _
        injection hs with hs
        subst hs
        rw [hop] at hmsg
        exact absurd hmsg (by simp)
      · intro s2 msg s3 hs hmsg _ _
        injection hs with hs
        subst hs
        rw [hop] at hmsg
        exact absurd hmsg (by simp)
      · intro s2 msg e2 hs hmsg _ _
        injection hs with hs
        subst hs
        rw [hop] at hmsg
        exact absurd hmsg (by simp)
    | error msg =>
      by_cases hauth : isAuthShapedError msg = true
      · cases href : ctx.refreshSession with
        | ok s2 =>
          have hred : withAutoRefresh ctx = (ctx.op 1 s2, 2) := by
            simp [withAutoRefresh, hgv, hop, hauth, href]
          rw [hred]
          refine ⟨by omega, ?_, ?_, ?_, ?_⟩
          · constructor
            · intro _
              exact ⟨s, msg, s2, rfl, hop, hauth, rfl⟩
            · intro _; rfl
          · intro s3 msg2 hs hmsg hne
            injection hs with hs
            subst hs
            rw [hop] at hmsg
            injection hmsg with hmsg
            subst hmsg
            rw [hauth] at hne
            exact absurd hne (by simp)
          · intro s3 msg2 s4 hs hmsg _ hrf
            injection hs with hs
            subst hs
            injection hrf with hrf
            subst hrf
            rfl
          · intro s3 msg2 e2 hs hmsg _ hrf
            exact absurd hrf (by simp)
        | error e2 =>
          have hred : withAutoRefresh ctx = (.error msg, 1) := by
            simp [withAutoRefresh, hgv, hop, hauth, href]
          rw [hred]
          refine ⟨by omega, ?_, ?_, ?_, ?_⟩
          · constructor
            · intro h; exact absurd h (by simp)
            · rintro ⟨s3, msg2, s4, hs, hmsg, _, hrf⟩
              exact absurd hrf (by simp)
          · intro s3 msg2 hs hmsg hne
            injection hs with hs
            subst hs
            rw [hop] at hmsg
            injection hmsg with hmsg
            subst hmsg
            rfl
          · intro s3 msg2 s4 hs hmsg _ hrf
            exact absurd hrf (by simp)
          · intro s3 msg2 e2b hs hmsg _ _
            injection hs with hs
            subst hs
            rw [hop] at hmsg
            injection hmsg with hmsg
            subst hmsg
            rfl
      · have hauth2 : isAuthShapedError msg = false := by simpa using hauth
        have hred : withAutoRefresh ctx = (.error msg, 1) := by
          simp [withAutoRefresh, hgv, hop, hauth2]
        rw [hred]
        refine ⟨by omega, ?_, ?_, ?_, ?_⟩
        · constructor
          · intro h; exact absurd h (by simp)
          · rintro ⟨s3, msg2, s4, hs, hmsg, hsh, _⟩
            injection hs with hs
            subst hs
            rw [hop] at hmsg
            injection hmsg with hmsg
            subst hmsg
            rw [hauth2] at hsh
            exact absurd hsh (by simp)
        · intro s3 msg2 hs hmsg _
          injection hs with hs
          subst hs
          rw [hop] at hmsg
          injection hmsg with hmsg
          subst hmsg
          rfl
        · intro s3 msg2 s4 hs hmsg hsh _
          injection hs with hs
          subst hs
          rw [hop] at hmsg
          injection hmsg with hmsg
          subst hmsg
          rw [hauth2] at hsh
          exact absurd hsh (by simp)
        · intro s3 msg2 e2 hs hmsg hsh _
          injection hs with hs
          subst hs
          rw [hop] at hmsg
          injection hmsg with hmsg
          subst hmsg
          rfl

/-- Witness for C4: a concrete context whose first call fails with a
`401`-shaped error and whose refresh succeeds, so the retried call's value
is returned and the operation ran twice. -/
theorem claim_C4_withAutoRefresh_witness :
    (withAutoRefresh
      { getValidSession := .ok ⟨"u", "a", "c", "r", 0⟩
        refreshSession := .ok ⟨"u", "a2", "c2", "r", 1⟩
        op := fun n _ => if n = 0 then .error "HTTP 401" else .ok (42 : Nat) }).1
      = .ok 42 := by
  have h := (claim_C4_withAutoRefresh
    { getValidSession := .ok ⟨"u", "a", "c", "r", 0⟩
      refreshSession := .ok ⟨"u", "a2", "c2", "r", 1⟩
      op := fun n _ => if n = 0 then .error "HTTP 401" else .ok (42 : Nat) }).2.2.2.1
  rw [h ⟨"u", "a", "c", "r", 0⟩ "HTTP 401" ⟨"u", "a2", "c2", "r", 1⟩ rfl rfl (by decide) rfl]
  rfl

/-! ## Claim C8 -/

/-- C8 (amended): for a token whose decodable expiry claim is a non-zero
integer `e`, `isTokenExpiring` is true exactly when `e` seconds (in
milliseconds) is at most 60 seconds past `now`; with no decodable payload
or no expiry claim it is false.  (The `e = 0` case is carved out: JS
`!payload?.exp` treats a zero claim as absent — see the counterexample.) -/
theorem claim_C8_token_expiry (b64 : String → String) (now : Int) (token : String) :
    (parseJwtPayload b64 token = none → isTokenExpiring b64 now token = false) ∧
    (∀ p, parseJwtPayload b64 token = some p →
      (p.getField "exp").bind JVal.asInt = none → isTokenExpiring b64 now token = false) ∧
    (∀ p e, parseJwtPayload b64 token = some p →
      (p.getField "exp").bind JVal.asInt = some e → e ≠ 0 →
      (isTokenExpiring b64 now token = true ↔ e * 1000 ≤ now + 60000)) := by
  refine ⟨?_, ?_, ?_⟩
  · intro h
    simp [isTokenExpiring, h]
  · intro p hp he
    simp [isTokenExpiring, hp, he]
  · intro p e hp he hne
    simp only [isTokenExpiring, hp, he]
    rw [if_neg hne]
    simp only [decide_eq_true_eq]
    omega

/-- Witness for C8 at a concrete token whose payload decodes to
`{"exp":1}` far in the past. -/
theorem claim_C8_token_expiry_witness :
    isTokenExpiring (fun s => if s = "x" then "\x7b\"exp\":1\x7d" else "") 1700000000000 "a.x.c"
      = true := by
  have h := (claim_C8_token_expiry (fun s => if s = "x" then "\x7b\"exp\":1\x7d" else "")
    1700000000000 "a.x.c").2.2
  exact (h (.jobj [("exp", .jint 1)]) 1 rfl rfl (by decide)).mpr (by norm_num)

/-- Counterexample to C8 as stated: a token whose payload decodes to
`{"exp":0}` has a decodable expiry claim that is long past (so the claim
predicts `true`), yet `isTokenExpiring` returns `false`, because the JS
guard `!payload?.exp` treats the number `0` as falsy. -/
theorem claim_C8_counterexample :
    parseJwtPayload (fun s => if s = "eyJleHAiOjB9" then "\x7b\"exp\":0\x7d" else "")
        "h.eyJleHAiOjB9.s" = some (.jobj [("exp", .jint 0)]) ∧
    (0 : Int) * 1000 ≤ 1700000000000 + 60000 ∧
    isTokenExpiring (fun s => if s = "eyJleHAiOjB9" then "\x7b\"exp\":0\x7d" else "")
        1700000000000 "h.eyJleHAiOjB9.s" = false :=
  ⟨rfl, by norm_num, rfl⟩

/-! ## Claim C5 -/

/-- C5 (amended): the decoded body is `info.message` when that field is a
non-empty string (taking precedence over any caption); an absent *or
empty* message falls back to a non-empty `info.caption`; and a body that
does not parse as JSON is passed through verbatim.  (JS `||` also sends an
empty caption to the raw text; the counterexample shows the empty-string
corner the original claim misses.) -/
theorem claim_C5_body_decode (raw : String) :
    (jsonParse raw = none → (parseElymentsBody raw).body = raw) ∧
    (∀ p m, jsonParse raw = some p → infoMessageOf p = some m → m ≠ "" →
      (parseElymentsBody raw).body = m) ∧
    (∀ p c, jsonParse raw = some p →
      (infoMessageOf p = none ∨ infoMessageOf p = some "") →
      infoCaptionOf p = some c → c ≠ "" →
      (parseElymentsBody raw).body = c) := by
  refine ⟨?_, ?_, ?_⟩
  · intro h
    simp [parseElymentsBody, h]
  · intro p m hp hm hne
    unfold infoMessageOf at hm
    simp [parseElymentsBody, hp, hm, jsOrS, hne]
  · intro p c hp hm hc hcne
    unfold infoMessageOf at hm
    unfold infoCaptionOf at hc
    rcases hm with hm | hm <;> simp [parseElymentsBody, hp, hm, hc, jsOrS, hcne]

/-- Witness for C5: a non-JSON body passes through verbatim, and a JSON
body with a non-empty `info.message` decodes to that message. -/
theorem claim_C5_body_decode_witness :
    (parseElymentsBody "plain text").body = "plain text" ∧
    (parseElymentsBody "\x7b\"info\":\x7b\"message\":\"hi\"\x7d\x7d").body = "hi" :=
  ⟨(claim_C5_body_decode "plain text").1 rfl,
   (claim_C5_body_decode "\x7b\"info\":\x7b\"message\":\"hi\"\x7d\x7d").2.1
     (.jobj [("info", .jobj [("message", .jstr "hi")])]) "hi"
     (by rfl) (by rfl) (by decide)⟩

/-- Counterexample to C5 as stated: this body parses as JSON with an
`info.message` field *present* (the empty string) and a caption `"hi"`;
the claim says the message takes precedence, but the decoder returns the
caption, because JS `||` treats the empty message as absent. -/
theorem claim_C5_counterexample :
    jsonParse "\x7b\"info\":\x7b\"message\":\"\",\"caption\":\"hi\"\x7d\x7d"
      = some (.jobj [("info", .jobj [("message", .jstr ""), ("caption", .jstr "hi")])]) ∧
    infoMessageOf (.jobj [("info", .jobj [("message", .jstr ""), ("caption", .jstr "hi")])])
      = some "" ∧
    (parseElymentsBody "\x7b\"info\":\x7b\"message\":\"\",\"caption\":\"hi\"\x7d\x7d").body = "hi" ∧
    ("hi" : String) ≠ "" :=
  ⟨rfl, rfl, rfl, by decide⟩

/-! ## Claim C6 -/

/-- C6: a message stanza wrapping a MAM result whose forwarded inner
message has (non-JSON) body `B` and delay stamp `T` decodes to an event
with body `B` and the stamp's timestamp, whatever the wall-clock `now` of
outer delivery. -/
theorem claim_C6_mam_decode (userId : String) (now : Int) (dateParse : String → Int)
    (st : Stanza) (B T : String)
    (hname : st.name = "message")
    (hself : occursIn userId (st.fromAttr.getD "") = false)
    (hmam : st.mamResult = some ⟨some ⟨some ⟨some B⟩, some ⟨some T⟩⟩⟩)
    (hB : B ≠ "") (hnj : jsonParse B = none) :
    (handleStanza userId now dateParse st).map XmppMessageEvent.body = some B ∧
    (handleStanza userId now dateParse st).map XmppMessageEvent.timestamp
      = some (dateParse T) := by
  unfold handleStanza
  simp [hname, hself, hmam, jsOrS, hB, parseElymentsBody, hnj]

/-- Witness for C6 at a concrete archived stanza. -/
theorem claim_C6_mam_decode_witness :
    ((handleStanza "me" 999 (fun _ => 42)
        ⟨"message", some "alice@localhost", some "me@localhost", some "id1", some "chat",
          some "outer", some ⟨some ⟨some ⟨some "archived"⟩,
            some ⟨some "2024-01-01T00:00:00Z"⟩⟩⟩⟩).map XmppMessageEvent.body
      = some "archived") ∧
    ((handleStanza "me" 999 (fun _ => 42)
        ⟨"message", some "alice@localhost", some "me@localhost", some "id1", some "chat",
          some "outer", some ⟨some ⟨some ⟨some "archived"⟩,
            some ⟨some "2024-01-01T00:00:00Z"⟩⟩⟩⟩).map XmppMessageEvent.timestamp
      = some 42) :=
  claim_C6_mam_decode "me" 999 (fun _ => 42) _ "archived" "2024-01-01T00:00:00Z"
    rfl (by decide) rfl (by decide) rfl

/-! ## Claim C7 -/

/-- C7 (amended): for every *non-empty* text and any sender name and body
id, the JSON envelope `sendText` puts on the wire decodes back to the
original text through the inbound body-decode path.  (The empty text is
the carve-out: see the counterexample.) -/
theorem claim_C7_roundtrip (senderName : Option String) (text bodyId : String)
    (ht : text ≠ "") :
    (parseElymentsBody (sendTextBody senderName text bodyId)).body = text := by
  have hparse : jsonParse (sendTextBody senderName text bodyId)
      = some (sendTextEnvelope senderName text bodyId) := jsonParse_stringify _
  have hmsg : infoMessageOf (sendTextEnvelope senderName text bodyId) = some text := rfl
  unfold infoMessageOf at hmsg
  simp [parseElymentsBody, hparse, hmsg, jsOrS, ht]

/-- Witness for C7 at a concrete message. -/
theorem claim_C7_roundtrip_witness :
    (parseElymentsBody (sendTextBody (some "N") "hi there" "AB12")).body = "hi there" :=
  claim_C7_roundtrip (some "N") "hi there" "AB12" (by decide)

/-- Counterexample to C7 as stated: encoding the empty text and decoding
it back does not return the empty text — the decoder's JS `||` chain falls
through the empty `info.message` (and absent caption) to the raw JSON
body, which is non-empty. -/
theorem claim_C7_counterexample :
    (parseElymentsBody (sendTextBody none "" "AB12CD")).body
      = sendTextBody none "" "AB12CD" ∧
    sendTextBody none "" "AB12CD" ≠ "" :=
  ⟨rfl, by decide⟩

/-! ## Policy-gate helper lemmas -/

/-- The code's DM `permitted` test agrees with C1's phrasing of the
allow-list match. -/
theorem dmPermittedCheck_iff (staticA storeA : List String) (fromJid : String) :
    dmPermittedCheck (((staticA ++ storeA).map (fun e => jsTrim (lowerStr e))))
      (extractUserId fromJid) fromJid = true ↔ dmSpecAllowMatch staticA storeA fromJid := by
  unfold dmPermittedCheck dmSpecAllowMatch
  rw [nonempty_any_iff]
  constructor
  · rintro ⟨x, hx, h⟩
    refine ⟨x, hx, ?_⟩
    simp only [Bool.or_eq_true, beq_iff_eq] at h
    tauto
  · rintro ⟨x, hx, h⟩
    refine ⟨x, hx, ?_⟩
    simp only [Bool.or_eq_true, beq_iff_eq]
    tauto

/-- C2's phrasing of the command allow-list match implies the code's
check, and forces the combined list non-empty (so the authorizer counts
as configured). -/
theorem cmdSpec_implies_check (staticA storeA : List String) (fromJid : String)
    (h : cmdSpecAllowMatch staticA storeA fromJid) :
    commandAllowCheck ((staticA ++ storeA).map (fun e => jsTrim (lowerStr e)))
      (extractUserId fromJid) fromJid = true ∧
    ((staticA ++ storeA).map (fun e => jsTrim (lowerStr e))).isEmpty = false := by
  obtain ⟨x, hx, hor⟩ := h
  constructor
  · unfold commandAllowCheck
    rw [List.any_eq_true]
    refine ⟨x, hx, ?_⟩
    simp only [Bool.or_eq_true, beq_iff_eq]
    tauto
  · cases hl : (staticA ++ storeA).map (fun e => jsTrim (lowerStr e)) with
    | nil => rw [hl] at hx; exact absurd hx (by simp)
    | cons a t => rfl

/-- The pairing upsert reports `created` exactly when the key was absent. -/
theorem upsert_created_iff (store : PairingStore) (ch id : String) :
    (upsertChannelPairingRequest store ch id).2 = true ↔ (ch, id) ∉ store := by
  have hmem : store.any (fun p => p = (ch, id)) = true ↔ (ch, id) ∈ store := by
    simp [List.any_eq_true]
  unfold upsertChannelPairingRequest
  by_cases hm : (ch, id) ∈ store
  · rw [if_pos (hmem.mpr hm)]
    simp [hm]
  · rw [if_neg (by rw [hmem]; exact hm)]
    simp [hm]

/-- After the pairing upsert the key is always present. -/
theorem upsert_mem (store : PairingStore) (ch id : String) :
    (ch, id) ∈ (upsertChannelPairingRequest store ch id).1 := by
  have hmem : store.any (fun p => p = (ch, id)) = true ↔ (ch, id) ∈ store := by
    simp [List.any_eq_true]
  unfold upsertChannelPairingRequest
  by_cases hm : (ch, id) ∈ store
  · rw [if_pos (hmem.mpr hm)]
    exact hm
  · rw [if_neg (by rw [hmem]; exact hm)]
    exact List.mem_cons_self ..

/-! ## Claim C1 -/

/-- C1: for a fresh, non-empty direct message from a sender other than the
local user — policy `open` admits; a disabled DM channel or policy
`disabled` denies with no side effect; policy `allowlist` admits exactly
when the sender matches the combined static-plus-store allow list by
wildcard, bare id, full address, or resource-stripped address; policy
`pairing` denies a non-matching sender, sends the one-time notice exactly
when the store had no pending request for (elyments, sender), and a repeat
message from the same still-unapproved sender is denied with no second
notice. -/
theorem claim_C1_dm_policy (env : MonitorEnv) (store : PairingStore)
    (ev : XmppMessageEvent)
    (hng : isElymentsGroup ev.fromJid = false)
    (hself : extractUserId ev.fromJid ≠ env.userId)
    (hts : ¬ ev.timestamp < env.startupMs)
    (hbody : jsTrim ev.body ≠ "") :
    ((env.account.dm.bind ElymentsDmConfig.enabled).getD true = true →
      (env.account.dm.bind ElymentsDmConfig.policy).getD "pairing" = "open" →
      handleMessage env store ev = ⟨true, false, store⟩) ∧
    ((env.account.dm.bind ElymentsDmConfig.enabled).getD true = false ∨
        (env.account.dm.bind ElymentsDmConfig.policy).getD "pairing" = "disabled" →
      handleMessage env store ev = ⟨false, false, store⟩) ∧
    ((env.account.dm.bind ElymentsDmConfig.enabled).getD true = true →
      (env.account.dm.bind ElymentsDmConfig.policy).getD "pairing" = "allowlist" →
      ((handleMessage env store ev).admitted = true ↔
        dmSpecAllowMatch ((env.account.dm.bind ElymentsDmConfig.allowFrom).getD [])
          env.storeAllowFrom ev.fromJid) ∧
      (handleMessage env store ev).pairingNoticeSent = false ∧
      (handleMessage env store ev).store = store) ∧
    ((env.account.dm.bind ElymentsDmConfig.enabled).getD true = true →
      (env.account.dm.bind ElymentsDmConfig.policy).getD "pairing" = "pairing" →
      ¬ dmSpecAllowMatch ((env.account.dm.bind ElymentsDmConfig.allowFrom).getD [])
          env.storeAllowFrom ev.fromJid →
      (handleMessage env store ev).admitted = false ∧
      ((handleMessage env store ev).pairingNoticeSent = true ↔
        ("elyments", extractUserId ev.fromJid) ∉ store) ∧
      (∀ ev2 : XmppMessageEvent,
        isElymentsGroup ev2.fromJid = false →
        extractUserId ev2.fromJid = extractUserId ev.fromJid →
        ¬ ev2.timestamp < env.startupMs →
        jsTrim ev2.body ≠ "" →
        ¬ dmSpecAllowMatch ((env.account.dm.bind ElymentsDmConfig.allowFrom).getD [])
            env.storeAllowFrom ev2.fromJid →
        (handleMessage env (handleMessage env store ev).store ev2).admitted = false ∧
        (handleMessage env (handleMessage env store ev).store ev2).pairingNoticeSent
          = false)) := by
  have hM := handleMessage_dm_eq env store ev hng hself hts hbody
  refine ⟨?_, ?_, ?_, ?_⟩
  · intro hE hP
    rw [hM, hE, hP]
    simp [dmDecision]
  · intro hD
    rcases hD with hE | hP
    · rw [hM, hE]
      simp [dmDecision]
    · rw [hM, hP]
      simp [dmDecision]
  · intro hE hP
    rw [hM, hE, hP]
    by_cases hperm : dmPermittedCheck
        (((env.account.dm.bind ElymentsDmConfig.allowFrom).getD [] ++ env.storeAllowFrom).map
          (fun e => jsTrim (lowerStr e)))
        (extractUserId ev.fromJid) ev.fromJid = true
    · have hspec := (dmPermittedCheck_iff _ _ _).mp hperm
      simp [dmDecision, hperm, hspec, -List.map_append]
    · have hpermf : dmPermittedCheck
          (((env.account.dm.bind ElymentsDmConfig.allowFrom).getD [] ++ env.storeAllowFrom).map
            (fun e => jsTrim (lowerStr e)))
          (extractUserId ev.fromJid) ev.fromJid = false := by
        simpa using hperm
      have hspec : ¬ dmSpecAllowMatch ((env.account.dm.bind ElymentsDmConfig.allowFrom).getD [])
          env.storeAllowFrom ev.fromJid := fun h =>
        hperm ((dmPermittedCheck_iff _ _ _).mpr h)
      simp [dmDecision, hpermf, hspec, -List.map_append]
  · intro hE hP hspec
    have hpermf : dmPermittedCheck
        (((env.account.dm.bind ElymentsDmConfig.allowFrom).getD [] ++ env.storeAllowFrom).map
          (fun e => jsTrim (lowerStr e)))
        (extractUserId ev.fromJid) ev.fromJid = false := by
      cases hb : dmPermittedCheck
          (((env.account.dm.bind ElymentsDmConfig.allowFrom).getD [] ++ env.storeAllowFrom).map
            (fun e => jsTrim (lowerStr e)))
          (extractUserId ev.fromJid) ev.fromJid
      · rfl
      · exact absurd ((dmPermittedCheck_iff _ _ _).mp hb) hspec
    have hres : handleMessage env store ev =
        ⟨false, (upsertChannelPairingRequest store "elyments" (extractUserId ev.fromJid)).2,
          (upsertChannelPairingRequest store "elyments" (extractUserId ev.fromJid)).1⟩ := by
      rw [hM, hE, hP]
      simp [dmDecision, hpermf, -List.map_append]
    refine ⟨by rw [hres], ?_, ?_⟩
    · rw [hres]
      exact upsert_created_iff store "elyments" (extractUserId ev.fromJid)
    · intro ev2 hng2 hsame hts2 hbody2 hspec2
      have hself2 : extractUserId ev2.fromJid ≠ env.userId := by
        rw [hsame]; exact hself
      have hM2 := handleMessage_dm_eq env ((handleMessage env store ev).store) ev2
        hng2 hself2 hts2 hbody2
      have hpermf2 : dmPermittedCheck
          (((env.account.dm.bind ElymentsDmConfig.allowFrom).getD [] ++ env.storeAllowFrom).map
            (fun e => jsTrim (lowerStr e)))
          (extractUserId ev2.fromJid) ev2.fromJid = false := by
        cases hb : dmPermittedCheck
            (((env.account.dm.bind ElymentsDmConfig.allowFrom).getD [] ++ env.storeAllowFrom).map
              (fun e => jsTrim (lowerStr e)))
            (extractUserId ev2.fromJid) ev2.fromJid
        · rfl
        · exact absurd ((dmPermittedCheck_iff _ _ _).mp hb) hspec2
      have hres2 : handleMessage env ((handleMessage env store ev).store) ev2 =
          ⟨false,
            (upsertChannelPairingRequest ((handleMessage env store ev).store) "elyments"
              (extractUserId ev2.fromJid)).2,
            (upsertChannelPairingRequest ((handleMessage env store ev).store) "elyments"
              (extractUserId ev2.fromJid)).1⟩ := by
        rw [hM2, hE, hP]
        simp [dmDecision, hpermf2, -List.map_append]
      have hkey : ("elyments", extractUserId ev2.fromJid) ∈ (handleMessage env store ev).store := by
        rw [hres, hsame]
        exact upsert_mem store "elyments" (extractUserId ev.fromJid)
      constructor
      · rw [hres2]
      · rw [hres2]
        have := (upsert_created_iff ((handleMessage env store ev).store) "elyments"
          (extractUserId ev2.fromJid))
        cases hb : (upsertChannelPairingRequest ((handleMessage env store ev).store) "elyments"
            (extractUserId ev2.fromJid)).2
        · rfl
        · exact absurd hkey (this.mp hb)

/-- Witness for C1: an unknown direct sender under the default `pairing`
policy gets the one-time pairing notice. -/
theorem claim_C1_dm_policy_witness :
    (handleMessage
      { userId := "me", startupMs := 0,
        account := { groupPolicy := none, dm := none, groups := none },
        cmdsUseAccessGroups := none, allowTextCommands := true,
        mentionMatch := fun _ => false, hasControlCommand := fun _ => false,
        storeAllowFrom := [] }
      []
      { id := "1", fromJid := "alice@localhost/web", toJid := "me@localhost",
        msgType := "chat", body := "hello", timestamp := 5,
        senderName := some "Alice" }).pairingNoticeSent = true := by
  have h := claim_C1_dm_policy
    { userId := "me", startupMs := 0,
      account := { groupPolicy := none, dm := none, groups := none },
      cmdsUseAccessGroups := none, allowTextCommands := true,
      mentionMatch := fun _ => false, hasControlCommand := fun _ => false,
      storeAllowFrom := [] }
    []
    { id := "1", fromJid := "alice@localhost/web", toJid := "me@localhost",
      msgType := "chat", body := "hello", timestamp := 5,
      senderName := some "Alice" }
    (by decide) (by decide) (by decide) (by decide)
  exact ((h.2.2.2 rfl rfl (by rintro ⟨e, he, _⟩; simp at he)).2.1).mpr (by decide)

/-! ## Claim C2 -/

/-- C2: in a group whose resolved configuration requires a mention, a
fresh non-empty message with no mention and no control command is denied;
the same circumstances with a control command present, text commands
handled on the surface, and a sender matching the command allow list by
wildcard, id, or full address (hence command-authorized under either
state of the access-groups toggle) are admitted despite the missing
mention. -/
theorem claim_C2_mention_gate (env : MonitorEnv) (store : PairingStore)
    (ev : XmppMessageEvent)
    (hg : isElymentsGroup ev.fromJid = true)
    (hself : extractUserId ev.fromJid ≠ env.userId)
    (hts : ¬ ev.timestamp < env.startupMs)
    (hbody : jsTrim ev.body ≠ "")
    (hpol : env.account.groupPolicy.getD "allowlist" ≠ "disabled")
    (hpass : env.account.groupPolicy.getD "allowlist" = "allowlist" →
      groupAllowlistCheck (env.account.groups.getD []) ev.fromJid
        (extractUserId ev.fromJid)
        (jsOrS ev.senderName (extractUserId ev.fromJid)) = true)
    (hreq : resolveShouldRequireMention
      (((lookupGroup (env.account.groups.getD []) ev.fromJid).orElse
        (fun _ => lookupGroup (env.account.groups.getD [])
          (extractUserId ev.fromJid))).getD ⟨none, none, none, none⟩) = true)
    (hnom : env.mentionMatch (jsTrim ev.body) = false) :
    (env.hasControlCommand (jsTrim ev.body) = false →
      (handleMessage env store ev).admitted = false) ∧
    (env.hasControlCommand (jsTrim ev.body) = true →
      env.allowTextCommands = true →
      cmdSpecAllowMatch ((env.account.dm.bind ElymentsDmConfig.allowFrom).getD [])
        env.storeAllowFrom ev.fromJid →
      (handleMessage env store ev).admitted = true) := by
  have hM := handleMessage_group_eq env store ev hg hself hts hbody
  have hd : (env.account.groupPolicy.getD "allowlist" == "disabled") = false := by
    simp only [beq_eq_false_iff_ne, ne_eq]
    exact hpol
  have hgate : ((env.account.groupPolicy.getD "allowlist" == "allowlist") &&
      !(groupAllowlistCheck (env.account.groups.getD []) ev.fromJid
        (extractUserId ev.fromJid)
        (jsOrS ev.senderName (extractUserId ev.fromJid)))) = false := by
    by_cases hal : env.account.groupPolicy.getD "allowlist" = "allowlist"
    · rw [hpass hal]
      simp
    · have : (env.account.groupPolicy.getD "allowlist" == "allowlist") = false := by
        simp only [beq_eq_false_iff_ne, ne_eq]
        exact hal
      rw [this]
      simp
  constructor
  · intro hcmd
    rw [hM]
    unfold groupDecision
    simp [hd, hgate, hreq, hnom, hcmd, -List.map_append]
  · intro hcmd htc hmatch
    have hcheck := cmdSpec_implies_check
      ((env.account.dm.bind ElymentsDmConfig.allowFrom).getD []) env.storeAllowFrom
      ev.fromJid hmatch
    have hauth : resolveCommandAuthorizedFromAuthorizers
        (!(env.cmdsUseAccessGroups == some false))
        (!(((env.account.dm.bind ElymentsDmConfig.allowFrom).getD [] ++
          env.storeAllowFrom).map (fun e => jsTrim (lowerStr e))).isEmpty)
        (commandAllowCheck
          (((env.account.dm.bind ElymentsDmConfig.allowFrom).getD [] ++
            env.storeAllowFrom).map (fun e => jsTrim (lowerStr e)))
          (extractUserId ev.fromJid) ev.fromJid) = true := by
      rw [hcheck.1, hcheck.2]
      cases henv : (env.cmdsUseAccessGroups == some false) <;>
        simp [resolveCommandAuthorizedFromAuthorizers]
    rw [hM]
    unfold groupDecision
    simp [hd, hgate, hreq, hnom, hcmd, htc, hauth, -List.map_append]

/-- Witness for C2: a group message with no mention and no command is
denied; with an authorized control command it is admitted. -/
theorem claim_C2_mention_gate_witness :
    ((handleMessage
      { userId := "me", startupMs := 0,
        account := { groupPolicy := some "open", dm := none, groups := none },
        cmdsUseAccessGroups := none, allowTextCommands := true,
        mentionMatch := fun _ => false, hasControlCommand := fun _ => false,
        storeAllowFrom := ["*"] }
      []
      { id := "2", fromJid := "room@muclight.localhost/alice", toJid := "me",
        msgType := "groupchat", body := "/status", timestamp := 5,
        senderName := some "Alice" }).admitted = false) ∧
    ((handleMessage
      { userId := "me", startupMs := 0,
        account := { groupPolicy := some "open", dm := none, groups := none },
        cmdsUseAccessGroups := none, allowTextCommands := true,
        mentionMatch := fun _ => false, hasControlCommand := fun _ => true,
        storeAllowFrom := ["*"] }
      []
      { id := "2", fromJid := "room@muclight.localhost/alice", toJid := "me",
        msgType := "groupchat", body := "/status", timestamp := 5,
        senderName := some "Alice" }).admitted = true) := by
  constructor
  · exact (claim_C2_mention_gate
      { userId := "me", startupMs := 0,
        account := { groupPolicy := some "open", dm := none, groups := none },
        cmdsUseAccessGroups := none, allowTextCommands := true,
        mentionMatch := fun _ => false, hasControlCommand := fun _ => false,
        storeAllowFrom := ["*"] }
      []
      { id := "2", fromJid := "room@muclight.localhost/alice", toJid := "me",
        msgType := "groupchat", body := "/status", timestamp := 5,
        senderName := some "Alice" }
      (by decide) (by decide) (by decide) (by decide) (by decide)
      (by intro h; exact absurd h (by decide)) (by decide) rfl).1 rfl
  · exact (claim_C2_mention_gate
      { userId := "me", startupMs := 0,
        account := { groupPolicy := some "open", dm := none, groups := none },
        cmdsUseAccessGroups := none, allowTextCommands := true,
        mentionMatch := fun _ => false, hasControlCommand := fun _ => true,
        storeAllowFrom := ["*"] }
      []
      { id := "2", fromJid := "room@muclight.localhost/alice", toJid := "me",
        msgType := "groupchat", body := "/status", timestamp := 5,
        senderName := some "Alice" }
      (by decide) (by decide) (by decide) (by decide) (by decide)
      (by intro h; exact absurd h (by decide)) (by decide) rfl).2 rfl rfl
      ⟨"*", by decide, by decide⟩

/-! ## Claim C3 -/

/-- C3: under group policy `allowlist`, a fresh non-empty group message is
denied unconditionally (whatever the mention matcher says) when neither
the chat id nor the sender id has a groups entry, or when the matched
entry is explicitly disabled; and when the matched entry carries a
non-empty user list that the sender matches neither by wildcard, id, nor
display name. -/
theorem claim_C3_group_allowlist (env : MonitorEnv) (store : PairingStore)
    (ev : XmppMessageEvent)
    (hg : isElymentsGroup ev.fromJid = true)
    (hself : extractUserId ev.fromJid ≠ env.userId)
    (hts : ¬ ev.timestamp < env.startupMs)
    (hbody : jsTrim ev.body ≠ "")
    (hpol : env.account.groupPolicy.getD "allowlist" = "allowlist") :
    (lookupGroup (env.account.groups.getD []) ev.fromJid = none →
      lookupGroup (env.account.groups.getD []) (extractUserId ev.fromJid) = none →
      handleMessage env store ev = ⟨false, false, store⟩) ∧
    (∀ gc, (lookupGroup (env.account.groups.getD []) ev.fromJid).orElse
        (fun _ => lookupGroup (env.account.groups.getD [])
          (extractUserId ev.fromJid)) = some gc →
      gc.enabled = some false →
      handleMessage env store ev = ⟨false, false, store⟩) ∧
    (∀ gc us, (lookupGroup (env.account.groups.getD []) ev.fromJid).orElse
        (fun _ => lookupGroup (env.account.groups.getD [])
          (extractUserId ev.fromJid)) = some gc →
      gc.users = some us → us ≠ [] →
      (∀ entry ∈ us, ¬(entry = "*" ∨
        lowerStr entry = lowerStr (extractUserId ev.fromJid) ∨
        lowerStr entry = lowerStr (jsOrS ev.senderName (extractUserId ev.fromJid)))) →
      handleMessage env store ev = ⟨false, false, store⟩) := by
  have hM := handleMessage_group_eq env store ev hg hself hts hbody
  refine ⟨?_, ?_, ?_⟩
  · intro h1 h2
    have hcheck : groupAllowlistCheck (env.account.groups.getD []) ev.fromJid
        (extractUserId ev.fromJid)
        (jsOrS ev.senderName (extractUserId ev.fromJid)) = false := by
      unfold groupAllowlistCheck
      rw [h1]
      simp [Option.orElse, h2]
    rw [hM]
    unfold groupDecision
    rw [hpol]
    simp [hcheck, -List.map_append]
  · intro gc hor hen
    have hcheck : groupAllowlistCheck (env.account.groups.getD []) ev.fromJid
        (extractUserId ev.fromJid)
        (jsOrS ev.senderName (extractUserId ev.fromJid)) = false := by
      unfold groupAllowlistCheck
      rw [hor]
      simp [hen]
    rw [hM]
    unfold groupDecision
    rw [hpol]
    simp [hcheck, -List.map_append]
  · intro gc us hor hus hne hnomatch
    have hany : us.any (fun entry =>
        entry == "*" || lowerStr entry == lowerStr (extractUserId ev.fromJid) ||
          lowerStr entry == lowerStr (jsOrS ev.senderName (extractUserId ev.fromJid)))
        = false := by
      rw [List.any_eq_false]
      intro entry hentry
      have := hnomatch entry hentry
      simp only [Bool.or_eq_true, beq_iff_eq, not_or] at this ⊢
      tauto
    have hcheck : groupAllowlistCheck (env.account.groups.getD []) ev.fromJid
        (extractUserId ev.fromJid)
        (jsOrS ev.senderName (extractUserId ev.fromJid)) = false := by
      unfold groupAllowlistCheck
      rw [hor]
      have hempty : us.isEmpty = false := by
        cases us with
        | nil => exact absurd rfl hne
        | cons a t => rfl
      by_cases hen : (gc.enabled == some false) = true
      · simp [hen]
      · simp [hen, hus, hempty, hany]
    rw [hM]
    unfold groupDecision
    rw [hpol]
    simp [hcheck, -List.map_append]

/-- Witness for C3: a group with no configuration entry under `allowlist`
policy is denied even though the mention matcher would fire. -/
theorem claim_C3_group_allowlist_witness :
    handleMessage
      { userId := "me", startupMs := 0,
        account := { groupPolicy := some "allowlist", dm := none, groups := none },
        cmdsUseAccessGroups := none, allowTextCommands := true,
        mentionMatch := fun _ => true, hasControlCommand := fun _ => false,
        storeAllowFrom := [] }
      []
      { id := "3", fromJid := "room@muclight.localhost/alice", toJid := "me",
        msgType := "groupchat", body := "@bot hi", timestamp := 7,
        senderName := some "Alice" } = ⟨false, false, []⟩ :=
  (claim_C3_group_allowlist
    { userId := "me", startupMs := 0,
      account := { groupPolicy := some "allowlist", dm := none, groups := none },
      cmdsUseAccessGroups := none, allowTextCommands := true,
      mentionMatch := fun _ => true, hasControlCommand := fun _ => false,
      storeAllowFrom := [] }
    []
    { id := "3", fromJid := "room@muclight.localhost/alice", toJid := "me",
      msgType := "groupchat", body := "@bot hi", timestamp := 7,
      senderName := some "Alice" }
    (by decide) (by decide) (by decide) (by decide) rfl).1 rfl rfl

/-! ## Claim C9 -/

/-- C9 (amended): a query already containing a recognized direct or group
domain suffix resolves to the *lowercased, trimmed* query (with the cached
title when a non-empty one is indexed), without touching the cache; any
other query is looked up by exact normalized key; on a miss both listings
are applied to the index and the lookup is retried against the refreshed
index exactly once, returning null exactly when the key is still absent.
(The original claim's "verbatim" fails on mixed-case queries — see the
counterexample.) -/
theorem claim_C9_resolve_recipient (chats : List ChatRow) (groups : List GroupRow)
    (idx : RecIndex) (query : String) :
    ((occursIn "@localhost" (jsTrim (lowerStr query)) ||
        occursIn "@muclight.localhost" (jsTrim (lowerStr query))) = true →
      resolveRecipient (some chats) (some groups) idx query =
        (some ⟨jsTrim (lowerStr query), isElymentsGroup (jsTrim (lowerStr query)),
          jsOrS ((mapGet idx (jsTrim (lowerStr query))).map RecipientEntry.title)
            (jsTrim (lowerStr query))⟩, idx)) ∧
    ((occursIn "@localhost" (jsTrim (lowerStr query)) ||
        occursIn "@muclight.localhost" (jsTrim (lowerStr query))) = false →
      ∀ e, mapGet idx (jsTrim (lowerStr query)) = some e →
        resolveRecipient (some chats) (some groups) idx query =
          (some ⟨e.jid, e.isGroup, e.title⟩, idx)) ∧
    ((occursIn "@localhost" (jsTrim (lowerStr query)) ||
        occursIn "@muclight.localhost" (jsTrim (lowerStr query))) = false →
      mapGet idx (jsTrim (lowerStr query)) = none →
      (resolveRecipient (some chats) (some groups) idx query).2
          = applyGroupList (applyChatList idx chats) groups ∧
      ((resolveRecipient (some chats) (some groups) idx query).1 = none ↔
        mapGet (applyGroupList (applyChatList idx chats) groups)
          (jsTrim (lowerStr query)) = none) ∧
      (∀ e, mapGet (applyGroupList (applyChatList idx chats) groups)
          (jsTrim (lowerStr query)) = some e →
        (resolveRecipient (some chats) (some groups) idx query).1
          = some ⟨e.jid, e.isGroup, e.title⟩)) := by
  refine ⟨?_, ?_, ?_⟩
  · intro h
    simp [resolveRecipient, h]
  · intro h e he
    simp [resolveRecipient, h, he]
  · intro h hnone
    refine ⟨?_, ?_, ?_⟩
    · simp only [resolveRecipient, h, hnone]
      cases hm : mapGet (applyGroupList (applyChatList idx chats) groups)
          (jsTrim (lowerStr query)) <;> simp [hm]
    · simp only [resolveRecipient, h, hnone]
      cases hm : mapGet (applyGroupList (applyChatList idx chats) groups)
          (jsTrim (lowerStr query)) <;> simp [hm]
    · intro e he
      simp [resolveRecipient, h, hnone, he]

/-- Witness for C9: a JID-shaped query resolves to itself against an empty
cache without touching it. -/
theorem claim_C9_resolve_recipient_witness :
    resolveRecipient (some []) (some []) [] "bob@localhost"
      = (some ⟨"bob@localhost", false, "bob@localhost"⟩, []) :=
  (claim_C9_resolve_recipient [] [] [] "bob@localhost").1 (by decide)

/-- Counterexample to C9 as stated: a mixed-case query containing the
direct-address suffix is not returned verbatim — the resolver returns the
lowercased form. -/
theorem claim_C9_counterexample :
    (resolveRecipient none none [] "ABC@LOCALHOST").1
      = some ⟨"abc@localhost", false, "abc@localhost"⟩ ∧
    ("abc@localhost" : String) ≠ "ABC@LOCALHOST" :=
  ⟨rfl, by decide⟩

end Elyments
